import Mathlib

/-!
# GoBank: the authentication middleware and the account-access contract

A shallow embedding of `api.go`, `types.go` and `persistence.go`.

* Go strings are lists of characters (`Str`); `int`, `int64` and instants
  (Unix seconds) are `Int`.
* The libraries the program calls (`encoding/base64`, `encoding/json`,
  `strconv`, `golang-jwt/jwt/v5`, `database/sql`, `gorilla/mux`, `net/http`)
  are modelled by executable definitions that follow their documented
  behaviour, each marked as a library model.
  Cryptographic primitives, the request-body decoders and the sources of
  time and randomness are parameters (`Env`, `Ambient`).
* A handler is a function on an explicit response writer; the store is an
  explicit state.
-/

set_option maxRecDepth 100000
set_option exponentiation.threshold 4096

namespace GoBank

abbrev Str := List Char

deriving instance DecidableEq for Except

/-! ## Library model: strconv -/

/-- ASCII decimal digit test. -/
def isDigit (c : Char) : Bool := decide (48 ≤ c.toNat ∧ c.toNat ≤ 57)

/-- Value of an ASCII decimal digit. -/
def digitVal (c : Char) : Nat := c.toNat - 48

/-- The ASCII digit of a number below ten. -/
def digitChar (d : Nat) : Char := Char.ofNat (48 + d)

/-- Decimal digits of `n`, most significant first; `fuel` bounds the number of digits. -/
def formatNatAux : Nat → Nat → Str
  | 0, _ => []
  | fuel + 1, n =>
    if n < 10 then [digitChar n] else formatNatAux fuel (n / 10) ++ [digitChar (n % 10)]

/-- Decimal rendering of a natural number (`strconv.FormatUint(n, 10)`). -/
def formatNat (n : Nat) : Str := formatNatAux (n + 1) n

/-- Decimal rendering of an integer (`strconv.FormatInt(i, 10)`). -/
def FormatInt (i : Int) : Str :=
  if i < 0 then '-' :: formatNat i.natAbs else formatNat i.natAbs

/-- Value of a digit string read left to right. -/
def digitsValue (ds : Str) : Nat := ds.foldl (fun a c => a * 10 + digitVal c) 0

/-- The value of a non-empty all-digit string. -/
def parseDigits (s : Str) : Option Nat :=
  if s = [] ∨ s.all isDigit = false then none else some (digitsValue s)

/-- Model of `strconv.Atoi` on a 64-bit platform: the value and whether an error
was returned. A syntax error gives 0, a range error the nearest bound. -/
def Atoi (s : Str) : Int × Bool :=
  match s with
  | [] => (0, true)
  | c :: t =>
    if c = '-' then
      match parseDigits t with
      | none => (0, true)
      | some n => if 2 ^ 63 < n then (-(2 ^ 63 : Int), true) else (-(n : Int), false)
    else
      match parseDigits (if c = '+' then t else c :: t) with
      | none => (0, true)
      | some n => if 2 ^ 63 ≤ n then ((2 ^ 63 : Int) - 1, true) else ((n : Int), false)

/-! ## Library model: encoding/base64, `RawURLEncoding` -/

/-- The URL-safe alphabet (`encodeURL` in encoding/base64). -/
def encodeURL : Str :=
  "ABCDEFGHIJKLMNOPQRSTUVWXYZabcdefghijklmnopqrstuvwxyz0123456789-_".toList

/-- The character of a 6-bit value. -/
def b64Char (i : Nat) : Char := encodeURL.getD i 'A'

/-- The 6-bit value of a character of the alphabet. -/
def b64Index (c : Char) : Option Nat :=
  if encodeURL.indexOf c < 64 then some (encodeURL.indexOf c) else none

/-- Unpadded base64 encoding of a byte string (bytes are taken modulo 256). -/
def b64Encode : List Nat → Str
  | a :: b :: c :: rest =>
      let v := (a % 256) * 65536 + (b % 256) * 256 + c % 256
      b64Char (v / 262144 % 64) :: b64Char (v / 4096 % 64) :: b64Char (v / 64 % 64)
        :: b64Char (v % 64) :: b64Encode rest
  | [a, b] =>
      let v := (a % 256) * 65536 + (b % 256) * 256
      [b64Char (v / 262144 % 64), b64Char (v / 4096 % 64), b64Char (v / 64 % 64)]
  | [a] =>
      let v := (a % 256) * 65536
      [b64Char (v / 262144 % 64), b64Char (v / 4096 % 64)]
  | [] => []

/-- Unpadded base64 decoding of a text without line breaks (non-strict: trailing
bits are ignored). Any character outside the alphabet is an error. -/
def b64DecodeQuanta : Str → Option (List Nat)
  | c0 :: c1 :: c2 :: c3 :: rest =>
      match b64Index c0, b64Index c1, b64Index c2, b64Index c3, b64DecodeQuanta rest with
      | some i0, some i1, some i2, some i3, some bs =>
          let v := i0 * 262144 + i1 * 4096 + i2 * 64 + i3
          some (v / 65536 % 256 :: v / 256 % 256 :: v % 256 :: bs)
      | _, _, _, _, _ => none
  | [c0, c1, c2] =>
      match b64Index c0, b64Index c1, b64Index c2 with
      | some i0, some i1, some i2 =>
          let v := i0 * 262144 + i1 * 4096 + i2 * 64
          some [v / 65536 % 256, v / 256 % 256]
      | _, _, _ => none
  | [c0, c1] =>
      match b64Index c0, b64Index c1 with
      | some i0, some i1 =>
          let v := i0 * 262144 + i1 * 4096
          some [v / 65536 % 256]
      | _, _ => none
  | [_] => none
  | [] => some []

/-- `RawURLEncoding.DecodeString`: carriage returns and line feeds are skipped. -/
def b64Decode (s : Str) : Option (List Nat) :=
  b64DecodeQuanta (s.filter (fun c => decide (c ≠ '\r' ∧ c ≠ '\n')))

/-- The bytes of an ASCII string. -/
def strToBytes (s : Str) : List Nat := s.map Char.toNat

/-- The string of a list of ASCII bytes. -/
def bytesToStr (bs : List Nat) : Str := bs.map Char.ofNat

/-! ## Library model: float64

A finite float64 is held exactly: every finite float64 is an integer multiple
of 2^-1074, and `scaled` is that integer. Negative zero is not told apart from
zero. -/

structure Float64 where
  scaled : Int
  deriving DecidableEq, Repr

/-- The float64 whose value is the integer `i`, for an `i` a float64 holds exactly. -/
def Float64.ofInt (i : Int) : Float64 := ⟨i * ((2 ^ 1074 : Nat) : Int)⟩

/-- Bits of `n`, counted by halving; `fuel` bounds the count. -/
def bitLengthAux : Nat → Nat → Nat
  | 0, _ => 0
  | fuel + 1, n => if n = 0 then 0 else bitLengthAux fuel (n / 2) + 1

/-- The number of bits of `n` (`bits.Len`). -/
def bitLength (n : Nat) : Nat := bitLengthAux n n

/-- The binary exponent at which the ratio `n / d` is rounded: the quotient by
`2^e` has 53 bits, and `e` is at least -1074 (subnormal range). -/
def float64Exponent (n d : Nat) : Int :=
  let e0 : Int := (bitLength n : Int) - (bitLength d : Int) - 53
  let e1 : Int := if n * 2 ^ (-e0).toNat / (d * 2 ^ e0.toNat) < 2 ^ 53 then e0 else e0 + 1
  max e1 (-1074)

/-- The multiple of `2^e` nearest to `n / d` (ties to even), as a scaled
magnitude; `none` when it is 2^1024 or more. -/
def roundToExponent (n d : Nat) (e : Int) : Option Nat :=
  let num := n * 2 ^ (-e).toNat
  let den := d * 2 ^ e.toNat
  let q := num / den
  let r := num % den
  let m := if den < 2 * r ∨ (2 * r = den ∧ q % 2 = 1) then q + 1 else q
  if m * 2 ^ (e + 1074).toNat < 2 ^ 2098 then some (m * 2 ^ (e + 1074).toNat) else none

/-- The float64 nearest to the ratio `n / d` (round to nearest, ties to even), as
its scaled magnitude; `none` when the result is out of range. -/
def nearestFloat64 (n d : Nat) : Option Nat := roundToExponent n d (float64Exponent n d)

/-- The range of an `int64`. -/
def isInt64 (i : Int) : Prop := -(2 ^ 63 : Int) ≤ i ∧ i < 2 ^ 63

instance (i : Int) : Decidable (isInt64 i) := by unfold isInt64; infer_instance

/-- The int64 an integer wraps to. -/
def wrapInt64 (i : Int) : Int := (i + 2 ^ 63) % 2 ^ 64 - 2 ^ 63

/-- The float64 nearest to an integer: what an integer literal denotes. -/
def float64OfInt (i : Int) : Option Float64 :=
  match nearestFloat64 i.natAbs 1 with
  | some m => some ⟨if i < 0 then -(m : Int) else (m : Int)⟩
  | none => none

/-- `math.Trunc`: the integer part, toward zero. -/
def Float64.trunc (f : Float64) : Int :=
  if f.scaled < 0 then -((f.scaled.natAbs / 2 ^ 1074 : Nat) : Int)
  else ((f.scaled.natAbs / 2 ^ 1074 : Nat) : Int)

/-- Go conversion `int64(f)`: the fraction is discarded; out of range the result
is the one of amd64. -/
def int64OfFloat64 (f : Float64) : Int :=
  if isInt64 f.trunc then f.trunc else -(2 ^ 63 : Int)

/-! ## Library model: encoding/json

`json.Marshal` on the maps the program builds and `json.Unmarshal` into a
`map[string]interface{}`. Strings are byte strings, one character a byte; a
`\u` escape decodes to its UTF-8 bytes. Bytes above 0x7f inside a string
literal are kept as they are (Go replaces ill-formed UTF-8 by U+FFFD). -/

/-- A value the program stores in a map it marshals. -/
inductive Field where
  | int64 (n : Int)
  | string (s : Str)
  deriving DecidableEq, Repr

/-- A value `json.Unmarshal` stores in an `interface{}`. -/
inductive Value where
  | float64 (f : Float64)
  | string (s : Str)
  | bool (b : Bool)
  | nil
  | array (items : List Value)
  | object (members : List (Str × Value))

/-- A decoded `map[string]interface{}` as an association list. -/
abbrev GoMap := List (Str × Value)

/-- Lookup `m[k]`. -/
def mapGet {β : Type} (m : List (Str × β)) (k : Str) : Option β :=
  match m with
  | [] => none
  | (a, v) :: rest => if a = k then some v else mapGet rest k

/-- Assignment `m[k] = v`. -/
def mapSet {β : Type} (m : List (Str × β)) (k : Str) (v : β) : List (Str × β) :=
  match m with
  | [] => [(k, v)]
  | (a, x) :: rest => if a = k then (a, v) :: rest else (a, x) :: mapSet rest k v

/-- Bytewise lexicographic order on strings. -/
def strLt : Str → Str → Bool
  | [], [] => false
  | [], _ :: _ => true
  | _ :: _, [] => false
  | a :: s, b :: t => if a.toNat < b.toNat then true else if a = b then strLt s t else false

/-- Insert a member into a key-sorted member list. -/
def insertMember (kv : Str × Field) : List (Str × Field) → List (Str × Field)
  | [] => [kv]
  | x :: rest => if strLt kv.1 x.1 then kv :: x :: rest else x :: insertMember kv rest

/-- The members of a map in key order, as `json.Marshal` emits them. -/
def sortMembers (m : List (Str × Field)) : List (Str × Field) := m.foldr insertMember []

/-- JSON text of a value. Strings are emitted without escaping, which is exact
for the strings this program marshals. -/
def marshalValue : Field → Str
  | .int64 n => FormatInt n
  | .string s => '"' :: s ++ ['"']

/-- JSON text of a member list, comma separated. -/
def marshalMembers : List (Str × Field) → Str
  | [] => []
  | [(k, v)] => '"' :: k ++ '"' :: ':' :: marshalValue v
  | (k, v) :: rest => '"' :: k ++ '"' :: ':' :: marshalValue v ++ ',' :: marshalMembers rest

/-- Model of `json.Marshal` on a map. -/
def jsonMarshal (m : List (Str × Field)) : Str :=
  Char.ofNat 123 :: marshalMembers (sortMembers m) ++ [Char.ofNat 125]

/-- JSON white space. -/
def isSpace (c : Char) : Bool := decide (c = ' ' ∨ c = '\t' ∨ c = '\r' ∨ c = '\n')

/-- Drop leading white space. -/
def skipSpace : Str → Str
  | [] => []
  | c :: rest => if isSpace c = true then skipSpace rest else c :: rest

/-- Value of a hexadecimal digit. -/
def hexVal (c : Char) : Option Nat :=
  if 48 ≤ c.toNat ∧ c.toNat ≤ 57 then some (c.toNat - 48)
  else if 97 ≤ c.toNat ∧ c.toNat ≤ 102 then some (c.toNat - 87)
  else if 65 ≤ c.toNat ∧ c.toNat ≤ 70 then some (c.toNat - 55)
  else none

/-- `getu4` after the `u`: four hexadecimal digits and the rest. -/
def scanHex4 (s : Str) : Option (Nat × Str) :=
  match s with
  | a :: b :: c :: d :: rest =>
    match hexVal a, hexVal b, hexVal c, hexVal d with
    | some x, some y, some z, some w => some (x * 4096 + y * 256 + z * 16 + w, rest)
    | _, _, _, _ => none
  | _ => none

/-- `utf8.EncodeRune`: the UTF-8 bytes of a code point. -/
def utf8Encode (cp : Nat) : Str :=
  if cp < 128 then [Char.ofNat cp]
  else if cp < 2048 then [Char.ofNat (192 + cp / 64), Char.ofNat (128 + cp % 64)]
  else if cp < 65536 then
    [Char.ofNat (224 + cp / 4096), Char.ofNat (128 + cp / 64 % 64), Char.ofNat (128 + cp % 64)]
  else
    [Char.ofNat (240 + cp / 262144), Char.ofNat (128 + cp / 4096 % 64),
     Char.ofNat (128 + cp / 64 % 64), Char.ofNat (128 + cp % 64)]

/-- The escape after a backslash: the bytes it stands for and the rest. A high
surrogate followed by a low surrogate escape is one code point; any other
surrogate is U+FFFD. -/
def scanEscape (s : Str) : Option (Str × Str) :=
  match s with
  | [] => none
  | e :: rest =>
    if e = '"' then some (['"'], rest)
    else if e = '\\' then some (['\\'], rest)
    else if e = '/' then some (['/'], rest)
    else if e = 'b' then some ([Char.ofNat 8], rest)
    else if e = 'f' then some ([Char.ofNat 12], rest)
    else if e = 'n' then some (['\n'], rest)
    else if e = 'r' then some (['\r'], rest)
    else if e = 't' then some (['\t'], rest)
    else if e = 'u' then
      match scanHex4 rest with
      | none => none
      | some (u, r) =>
        if 55296 ≤ u ∧ u < 57344 then
          match r with
          | a :: b :: r1 =>
            match scanHex4 r1 with
            | some (u2, r2) =>
              if a = '\\' ∧ b = 'u' ∧ u < 56320 ∧ 56320 ≤ u2 ∧ u2 < 57344 then
                some (utf8Encode (65536 + (u - 55296) * 1024 + (u2 - 56320)), r2)
              else some (utf8Encode 65533, r)
            | none => some (utf8Encode 65533, r)
          | _ => some (utf8Encode 65533, r)
        else some (utf8Encode u, r)
    else none

/-- The contents of a string literal after its opening quote, and the text after
its closing quote; `fuel` bounds the number of characters. A control character
is an error. -/
def scanString : Nat → Str → Option (Str × Str)
  | 0, _ => none
  | fuel + 1, s =>
    match s with
    | [] => none
    | c :: rest =>
      if c = '"' then some ([], rest)
      else if c.toNat < 32 then none
      else if c = '\\' then
        match scanEscape rest with
        | some (x, r) =>
          match scanString fuel r with
          | some (t, r1) => some (x ++ t, r1)
          | none => none
        | none => none
      else
        match scanString fuel rest with
        | some (t, r1) => some (c :: t, r1)
        | none => none

/-- The longest run of leading digits, and the rest. -/
def spanDigits : Str → Str × Str
  | [] => ([], [])
  | c :: rest =>
    if isDigit c then ((c :: (spanDigits rest).1), (spanDigits rest).2) else ([], c :: rest)

/-- The fraction of a number literal: its digits (none when there is no
fraction) and the rest. A point without a digit is an error. -/
def scanFraction (s : Str) : Option (Str × Str) :=
  match s with
  | [] => some ([], [])
  | c :: t =>
    if c = '.' then
      if (spanDigits t).1 = [] then none else some (spanDigits t)
    else some ([], c :: t)

/-- The exponent of a number literal (0 when there is none) and the rest. -/
def scanExponent (s : Str) : Option (Int × Str) :=
  match s with
  | [] => some (0, [])
  | c :: t =>
    if c = 'e' ∨ c = 'E' then
      match t with
      | [] => none
      | sgn :: u =>
        if sgn = '-' then
          if (spanDigits u).1 = [] then none
          else some (-(digitsValue (spanDigits u).1 : Int), (spanDigits u).2)
        else if sgn = '+' then
          if (spanDigits u).1 = [] then none
          else some ((digitsValue (spanDigits u).1 : Int), (spanDigits u).2)
        else
          if (spanDigits t).1 = [] then none
          else some ((digitsValue (spanDigits t).1 : Int), (spanDigits t).2)
    else some (0, c :: t)

/-- The digits of an unsigned number literal `(0 | [1-9][0-9]*) frac? exp?` as
the ratio it denotes, rounded to a float64 magnitude, and the rest. -/
def scanUnsigned (s : Str) : Option (Nat × Str) :=
  if (spanDigits s).1 = [] then none
  else if 1 < (spanDigits s).1.length ∧ (spanDigits s).1.head? = some '0' then none
  else
    match scanFraction (spanDigits s).2 with
    | none => none
    | some (fp, r1) =>
      match scanExponent r1 with
      | none => none
      | some (ex, r2) =>
        match nearestFloat64
            (digitsValue ((spanDigits s).1 ++ fp) * 10 ^ (ex - (fp.length : Int)).toNat)
            (10 ^ (-(ex - (fp.length : Int))).toNat) with
        | some m => some (m, r2)
        | none => none

/-- A number literal read as a float64 (`strconv.ParseFloat`). -/
def scanNumber (s : Str) : Option (Float64 × Str) :=
  match s with
  | [] => none
  | c :: rest =>
    if c = '-' then
      match scanUnsigned rest with
      | some (m, r) => some (⟨-(m : Int)⟩, r)
      | none => none
    else
      match scanUnsigned (c :: rest) with
      | some (m, r) => some (⟨(m : Int)⟩, r)
      | none => none

/-- What may follow a number literal without being read as part of it. -/
def endsNumber (rest : Str) : Prop :=
  ∀ c t, rest = c :: t → isDigit c = false ∧ c ≠ '.' ∧ c ≠ 'e' ∧ c ≠ 'E'

/-- Remove a leading literal. -/
def stripLeading : Str → Str → Option Str
  | [], s => some s
  | _ :: _, [] => none
  | a :: p, b :: s => if a = b then stripLeading p s else none

/-- The deepest nesting of arrays and objects the decoder accepts. -/
def maxNestingDepth : Nat := 10000

/-- A member list as a Go map: a later member replaces an earlier one with the
same key. -/
def mapOfMembers (ms : List (Str × Value)) : GoMap :=
  ms.foldl (fun m kv => mapSet m kv.1 kv.2) []

mutual

/-- One JSON value at the head of the text (no leading white space) and the text
after it; `depth` counts the enclosing arrays and objects, `fuel` bounds the
recursion (twice the length of the text is enough). -/
def scanValue : Nat → Nat → Str → Option (Value × Str)
  | 0, _, _ => none
  | fuel + 1, depth, s =>
    match s with
    | [] => none
    | c :: rest =>
      if c = Char.ofNat 123 then
        if maxNestingDepth ≤ depth then none
        else
          match skipSpace rest with
          | [] => none
          | d :: r =>
            if d = Char.ofNat 125 then some (Value.object [], r)
            else
              match scanMembers fuel (depth + 1) (d :: r) with
              | some (ms, r1) => some (Value.object (mapOfMembers ms), r1)
              | none => none
      else if c = '[' then
        if maxNestingDepth ≤ depth then none
        else
          match skipSpace rest with
          | [] => none
          | d :: r =>
            if d = ']' then some (Value.array [], r)
            else
              match scanElements fuel (depth + 1) (d :: r) with
              | some (vs, r1) => some (Value.array vs, r1)
              | none => none
      else if c = '"' then
        match scanString rest.length rest with
        | some (x, r) => some (Value.string x, r)
        | none => none
      else if c = 't' then
        match stripLeading "rue".toList rest with
        | some r => some (Value.bool true, r)
        | none => none
      else if c = 'f' then
        match stripLeading "alse".toList rest with
        | some r => some (Value.bool false, r)
        | none => none
      else if c = 'n' then
        match stripLeading "ull".toList rest with
        | some r => some (Value.nil, r)
        | none => none
      else
        match scanNumber (c :: rest) with
        | some (v, r) => some (Value.float64 v, r)
        | none => none

/-- The members of an object from its first key (no leading white space) up to
and including the closing brace. -/
def scanMembers : Nat → Nat → Str → Option (List (Str × Value) × Str)
  | 0, _, _ => none
  | fuel + 1, depth, s =>
    match s with
    | [] => none
    | c :: rest =>
      if c = '"' then
        match scanString rest.length rest with
        | none => none
        | some (k, r1) =>
          match skipSpace r1 with
          | [] => none
          | d :: r2 =>
            if d = ':' then
              match scanValue fuel depth (skipSpace r2) with
              | none => none
              | some (v, r3) =>
                match skipSpace r3 with
                | [] => none
                | e :: r4 =>
                  if e = ',' then
                    match scanMembers fuel depth (skipSpace r4) with
                    | some (ms, r5) => some ((k, v) :: ms, r5)
                    | none => none
                  else if e = Char.ofNat 125 then some ([(k, v)], r4)
                  else none
            else none
      else none

/-- The elements of an array from its first element (no leading white space) up
to and including the closing bracket. -/
def scanElements : Nat → Nat → Str → Option (List Value × Str)
  | 0, _, _ => none
  | fuel + 1, depth, s =>
    match scanValue fuel depth s with
    | none => none
    | some (v, r1) =>
      match skipSpace r1 with
      | [] => none
      | e :: r2 =>
        if e = ',' then
          match scanElements fuel depth (skipSpace r2) with
          | some (vs, r3) => some (v :: vs, r3)
          | none => none
        else if e = ']' then some ([v], r2)
        else none

end

/-- One JSON document: a value between optional white space, nothing after it. -/
def jsonDecode (s : Str) : Option Value :=
  match scanValue (2 * s.length + 2) 0 (skipSpace s) with
  | some (v, r) => if skipSpace r = [] then some v else none
  | none => none

/-- Model of `json.Unmarshal` into an empty `map[string]interface{}`: an object
fills the map, `null` leaves it empty, any other document is an error. -/
def jsonUnmarshal (s : Str) : Option GoMap :=
  match jsonDecode s with
  | some (Value.object m) => some m
  | some Value.nil => some []
  | _ => none

/-! ## Process environment

What the program reads from outside itself: the signing secret, the
cryptographic primitives, the request-body decoders, and per request the
clock and the random source. -/

structure CreateAccountRequest where
  FirstName : Str
  LastName : Str
  Password : Str
  deriving DecidableEq, Repr

structure LoginRequest where
  Number : Int
  Password : Str
  deriving DecidableEq, Repr

structure TransferRequest where
  To : Int
  Amount : Int
  deriving DecidableEq, Repr

structure Account where
  ID : Int
  FirstName : Str
  LastName : Str
  Number : Int
  Password : Str
  Balance : Int
  CreatedAt : Int
  deriving DecidableEq, Repr

structure Env where
  /-- Value of `os.Getenv("JWT_SECRET")`. -/
  JWT_SECRET : Str
  /-- The keyed hash of `crypto/hmac` for an algorithm name, a key and a message. -/
  hmac : Str → Str → Str → List Nat
  /-- Result of `bcrypt.GenerateFromPassword` for a password and its random salt. -/
  bcryptGenerate : Str → Nat → Str × Option Str
  /-- Whether `bcrypt.CompareHashAndPassword hash password` returns no error. -/
  bcryptCompare : Str → Str → Bool
  /-- The `json.Decoder` reading a request body into each request type. -/
  decodeCreateAccountRequest : Str → Except Str CreateAccountRequest
  decodeLoginRequest : Str → Except Str LoginRequest
  decodeTransferRequest : Str → Except Str TransferRequest

structure Ambient where
  /-- Reading of `time.Now()` in `generateJWT` and in the token validator, Unix seconds. -/
  now : Int
  /-- Reading of `time.Now()` in `NewAccount`. -/
  created : Int
  /-- Draw of the random source behind `rand.Int63n`. -/
  rand : Nat
  /-- Salt drawn by bcrypt. -/
  salt : Nat

/-! ## Library model: golang-jwt/jwt/v5 -/

abbrev MapClaims := GoMap

inductive JwtError where
  | ErrTokenMalformed
  | ErrTokenUnverifiable
  | ErrTokenSignatureInvalid
  | ErrTokenInvalidClaims
  deriving DecidableEq, Repr

inductive ClaimError where
  | ErrTokenExpired
  | ErrTokenNotValidYet
  | ErrInvalidType
  deriving DecidableEq, Repr

/-- A registered signing method: the HMAC family, whose key is a byte string,
or one of the others, whose `Verify` rejects a byte-string key. -/
inductive SigningMethod where
  | HMAC (alg : Str)
  | other (alg : Str)
  deriving DecidableEq, Repr

structure Token where
  Raw : Str
  Method : SigningMethod
  Header : GoMap
  Claims : MapClaims
  Signature : List Nat
  Valid : Bool

def algHS256 : Str := "HS256".toList

def keyAlg : Str := "alg".toList

def keyTyp : Str := "typ".toList

def keyExp : Str := "exp".toList

def keyNbf : Str := "nbf".toList

/-- Model of `strings.Split` for a one-character separator. -/
def splitOn (sep : Char) : Str → List Str
  | [] => [[]]
  | c :: cs =>
    if c = sep then [] :: splitOn sep cs
    else
      match splitOn sep cs with
      | [] => [[c]]
      | p :: ps => (c :: p) :: ps

/-- `Parser.DecodeSegment`. -/
def DecodeSegment (seg : Str) : Option (List Nat) := b64Decode seg

/-- `Token.EncodeSegment`. -/
def EncodeSegment (bs : List Nat) : Str := b64Encode bs

/-- `GetSigningMethod`: the methods the package registers. -/
def GetSigningMethod (alg : Str) : Option SigningMethod :=
  if alg ∈ ["HS256".toList, "HS384".toList, "HS512".toList] then some (.HMAC alg)
  else if alg ∈ ["RS256".toList, "RS384".toList, "RS512".toList, "PS256".toList,
      "PS384".toList, "PS512".toList, "ES256".toList, "ES384".toList, "ES512".toList,
      "EdDSA".toList, "none".toList] then some (.other alg)
  else none

/-- The MAC as a byte string. -/
def hmacSum (env : Env) (alg key msg : Str) : List Nat := (env.hmac alg key msg).map (· % 256)

/-- `SigningMethod.Sign` with a byte-string key. -/
def SigningMethod.Sign (env : Env) (m : SigningMethod) (signingString key : Str) :
    Option (List Nat) :=
  match m with
  | .HMAC alg => some (hmacSum env alg key signingString)
  | .other _ => none

/-- `SigningMethod.Verify` with a byte-string key: whether it returns no error. -/
def SigningMethod.Verify (env : Env) (m : SigningMethod) (signingString : Str)
    (sig : List Nat) (key : Str) : Bool :=
  match m with
  | .HMAC alg => decide (sig = hmacSum env alg key signingString)
  | .other _ => false

/-- Seconds from the zero instant of `time.Time` to the Unix epoch. -/
def unixToInternal : Int := 62135596800

/-- `time.Unix sec nsec` truncated to the second, as int64 seconds on the
internal clock of `time.Time`. -/
def timeUnixSeconds (sec nsec : Int) : Int :=
  wrapInt64 (sec + nsec / 1000000000 + unixToInternal)

/-- `newNumericDateFromSeconds f` at `TimePrecision` (one second): `math.Modf`
splits `f`, the fraction times 1e9 is rounded as a float64 product, and both
parts are converted by `int64`. -/
def numericDateOfFloat (f : Float64) : Int :=
  let frac : Int := f.scaled - f.trunc * ((2 ^ 1074 : Nat) : Int)
  let nsecMag : Nat :=
    match nearestFloat64 (frac.natAbs * 1000000000) (2 ^ 1074) with
    | some m => m
    | none => 0
  timeUnixSeconds (int64OfFloat64 f)
    (int64OfFloat64 ⟨if frac < 0 then -(Int.ofNat nsecMag) else Int.ofNat nsecMag⟩)

/-- `MapClaims.parseNumericDate`: an absent or zero claim is no date. -/
def parseNumericDate (m : MapClaims) (key : Str) : Except ClaimError (Option Int) :=
  match mapGet m key with
  | none => .ok none
  | some (.float64 v) => if v.scaled = 0 then .ok none else .ok (some (numericDateOfFloat v))
  | some _ => .error .ErrInvalidType

/-- `Validator.verifyExpiresAt` with `required = false`: `now.Before(exp)`. -/
def verifyExpiresAt (m : MapClaims) (now : Int) : Option ClaimError :=
  match parseNumericDate m keyExp with
  | .error e => some e
  | .ok none => none
  | .ok (some exp) =>
    if wrapInt64 (now + unixToInternal) < exp then none else some .ErrTokenExpired

/-- `Validator.verifyNotBefore` with `required = false`: `!now.Before(nbf)`. -/
def verifyNotBefore (m : MapClaims) (now : Int) : Option ClaimError :=
  match parseNumericDate m keyNbf with
  | .error e => some e
  | .ok none => none
  | .ok (some nbf) =>
    if wrapInt64 (now + unixToInternal) < nbf then some .ErrTokenNotValidYet else none

/-- `Validator.Validate` of the default validator: the errors found. Only the
registered claims `exp` and `nbf` are examined. -/
def Validate (m : MapClaims) (now : Int) : List ClaimError :=
  (verifyExpiresAt m now).toList ++ (verifyNotBefore m now).toList

/-- `Parser.ParseUnverified`: the token and its three segments. -/
def ParseUnverified (tokenString : Str) : Except JwtError (Token × Str × Str × Str) :=
  match splitOn '.' tokenString with
  | [p0, p1, p2] =>
    match DecodeSegment p0 with
    | none => .error .ErrTokenMalformed
    | some headerBytes =>
      match jsonUnmarshal (bytesToStr headerBytes) with
      | none => .error .ErrTokenMalformed
      | some header =>
        match DecodeSegment p1 with
        | none => .error .ErrTokenMalformed
        | some claimBytes =>
          match jsonUnmarshal (bytesToStr claimBytes) with
          | none => .error .ErrTokenMalformed
          | some claims =>
            match mapGet header keyAlg with
            | some (.string alg) =>
              match GetSigningMethod alg with
              | none => .error .ErrTokenUnverifiable
              | some method =>
                .ok (⟨tokenString, method, header, claims, [], false⟩, p0, p1, p2)
            | _ => .error .ErrTokenUnverifiable
  | _ => .error .ErrTokenMalformed

/-- `jwt.Parse` with a key function that returns `key`, at instant `now`. -/
def Parse (env : Env) (now : Int) (tokenString key : Str) : Except JwtError Token :=
  match ParseUnverified tokenString with
  | .error e => .error e
  | .ok (token, p0, p1, p2) =>
    match DecodeSegment p2 with
    | none => .error .ErrTokenMalformed
    | some sig =>
      if token.Method.Verify env (p0 ++ '.' :: p1) sig key = false then
        .error .ErrTokenSignatureInvalid
      else if Validate token.Claims now ≠ [] then .error .ErrTokenInvalidClaims
      else .ok { token with Signature := sig, Valid := true }

/-- `jwt.NewWithClaims(method, claims).SignedString(key)`; the header map is the
one `NewWithClaims` builds. -/
def SignedString (env : Env) (alg : Str) (claims : List (Str × Field)) (key : Str) :
    Str × Option Str :=
  let header : List (Str × Field) := [(keyTyp, .string "JWT".toList), (keyAlg, .string alg)]
  let sstr := EncodeSegment (strToBytes (jsonMarshal header)) ++
    '.' :: EncodeSegment (strToBytes (jsonMarshal claims))
  match GetSigningMethod alg with
  | some m =>
    match m.Sign env sstr key with
    | some sig => (sstr ++ '.' :: EncodeSegment sig, none)
    | none => ([], some "key is of invalid type".toList)
  | none => ([], some "signing method is unavailable".toList)

/-! ## Library model: net/http and gorilla/mux -/

/-- JSON scalars of the documents the handlers write. -/
inductive JScalar where
  | num (n : Int)
  | str (s : Str)
  | time (t : Int)
  deriving DecidableEq, Repr

/-- A JSON document written to a response: the members of the encoded struct or
map in field order, or an array of such objects. -/
inductive JDoc where
  | obj (fields : List (Str × JScalar))
  | arr (items : List (List (Str × JScalar)))
  deriving DecidableEq, Repr

/-- An `http.Header`: the values held under each key. -/
abbrev Header := List (Str × List Str)

/-- `Header.Get`: the first value under the key, or the empty string. -/
def Header.Get (h : Header) (key : Str) : Str :=
  match mapGet h key with
  | some (v :: _) => v
  | _ => []

/-- `Header.Set`: the key holds exactly this value. -/
def Header.Set (h : Header) (key value : Str) : Header := mapSet h key [value]

/-- `Header.Add`: the value is appended to those under the key. -/
def Header.Add (h : Header) (key value : Str) : Header :=
  match mapGet h key with
  | some vs => mapSet h key (vs ++ [value])
  | none => mapSet h key [value]

/-- What a handler has written to its `http.ResponseWriter`: the header map, the
status passed to the first `WriteHeader`, and the documents encoded to the body. -/
structure ResponseWriter where
  header : Header
  status : Option Nat
  body : List JDoc
  deriving DecidableEq, Repr

/-- The writer net/http hands to a handler. -/
def ResponseWriter.fresh : ResponseWriter := ⟨[], none, []⟩

/-- `w.WriteHeader(code)`: only the first call sets the status. -/
def ResponseWriter.WriteHeader (w : ResponseWriter) (code : Nat) : ResponseWriter :=
  match w.status with
  | none => { w with status := some code }
  | some _ => w

/-- An `http.Request` after routing: `Vars` is `mux.Vars(r)`. -/
structure Request where
  Method : Str
  Path : List Str
  Header : Header
  Vars : List (Str × Str)
  Body : Str
  deriving DecidableEq, Repr

def StatusOK : Nat := 200

def StatusBadRequest : Nat := 400

def StatusUnauthorized : Nat := 401

def hAuthorization : Str := "Authorization".toList

def hContentType : Str := "Content-Type".toList

def hWWWAuthenticate : Str := "WWW-Authenticate".toList

def keyId : Str := "id".toList

def keyAccount : Str := "account".toList

def keyExpiresAt : Str := "expiresAt".toList

/-! ## types.go -/

/-- JSON encoding of an `APIError`. -/
def APIError (msg : Str) : JDoc := .obj [("error".toList, .str msg)]

/-- JSON encoding of an `Account` by its struct tags; `Password` is tagged `-`. -/
def Account.fields (a : Account) : List (Str × JScalar) :=
  [("id".toList, .num a.ID), ("firstName".toList, .str a.FirstName),
   ("lastName".toList, .str a.LastName), ("accountNumber".toList, .num a.Number),
   ("balance".toList, .num a.Balance), ("createdAt".toList, .time a.CreatedAt)]

/-- JSON encoding of a `LoginRequest` by its struct tags. -/
def LoginRequest.fields (q : LoginRequest) : List (Str × JScalar) :=
  [("accountNumber".toList, .num q.Number), ("password".toList, .str q.Password)]

/-- JSON encoding of a `TransferRequest` by its struct tags. -/
def TransferRequest.fields (q : TransferRequest) : List (Str × JScalar) :=
  [("toAccount".toList, .num q.To), ("amount".toList, .num q.Amount)]

/-- `NewAccount`; `rand.Int63n(n)` is the draw reduced into `[0, n)`. -/
def NewAccount (firstName lastName hashedPasswd : Str) (amb : Ambient) : Account :=
  { ID := 0
    FirstName := firstName
    LastName := lastName
    Number := ((amb.rand % 1000000000000000 : Nat) : Int)
    Password := hashedPasswd
    Balance := 0
    CreatedAt := amb.created }

/-! ## persistence.go -/

/-- The `Persistence` interface over a store state `σ`. A lookup returns an
account and no error, or an error; `Save` and `Update` leave the account they
are passed unchanged, as those of `PostgresStore` do. -/
structure Persistence (σ : Type) where
  Save : σ → Account → σ × Option Str
  Delete : σ → Int → σ × Option Str
  Update : σ → Account → σ × Option Str
  Get : σ → Int → Except Str Account
  List : σ → Except Str (List Account)
  GetByNumber : σ → Int → Except Str Account

/-- A column value handed over by the database driver. -/
inductive SqlValue where
  | int (i : Int)
  | text (s : Str)
  | timestamp (t : Int)
  | null
  deriving DecidableEq, Repr

/-- A row of table `accounts` as `createAccountsTable` declares it. The columns
are nullable in SQL; every row `Save` writes holds a value in each. -/
structure Row where
  id : Int
  first_name : Str
  last_name : Str
  number : Int
  password : Str
  balance : Int
  created_at : Int
  deriving DecidableEq, Repr

/-- The columns `SELECT *` returns for a row, in declaration order. -/
def Row.columns (r : Row) : List SqlValue :=
  [.int r.id, .text r.first_name, .text r.last_name, .int r.number, .text r.password,
   .int r.balance, .timestamp r.created_at]

/-- The database behind a `PostgresStore`: the next value of the `serial`
sequence and the rows of `accounts`. -/
structure DB where
  nextId : Int
  accounts : List Row
  deriving DecidableEq, Repr

/-- The kind of Go variable a `Scan` destination points to. -/
inductive Dest where
  | int
  | int64
  | string
  | time
  deriving DecidableEq, Repr

/-- Whether `convertAssign` stores the column value in the destination. -/
def convertAssign (d : Dest) (v : SqlValue) : Bool :=
  match d, v with
  | .int, .int _ => true
  | .int64, .int _ => true
  | .string, .text _ => true
  | .string, .int _ => true
  | .time, .timestamp _ => true
  | _, _ => false

/-- Model of `Rows.Scan` in database/sql: the number of destinations must equal
the number of columns, and each column must convert. -/
def Scan (cols : List SqlValue) (dest : List Dest) : Except Str (List SqlValue) :=
  if dest.length ≠ cols.length then
    .error ("sql: expected ".toList ++ formatNat cols.length ++
      " destination arguments in Scan, not ".toList ++ formatNat dest.length)
  else if (List.zipWith convertAssign dest cols).all id then .ok cols
  else .error "sql: Scan error".toList

/-- Model of `QueryRow` followed by `Row.Scan`: the first row the query selects
is scanned; no row is `sql.ErrNoRows`. -/
def QueryRowScan (rows : List Row) (dest : List Dest) : Except Str (List SqlValue) :=
  match rows with
  | [] => .error "sql: no rows in result set".toList
  | r :: _ => Scan r.columns dest

/-- The destinations `Get`, `GetByNumber` and `List` pass to `Scan`:
`&a.ID, &a.FirstName, &a.LastName, &a.Number, &a.Balance, &a.CreatedAt`. -/
def accountDests : List Dest := [.int, .string, .string, .int64, .int64, .time]

/-- The account the scanned destinations make up. -/
def accountOfScan (vals : List SqlValue) : Option Account :=
  match vals with
  | [.int i, .text f, .text l, .int n, .int b, .timestamp t] =>
    some { ID := i, FirstName := f, LastName := l, Number := n, Password := [],
           Balance := b, CreatedAt := t }
  | _ => none

/-- `PostgresStore.Get`: `SELECT * FROM accounts WHERE id = $1`. -/
def PostgresStore.Get (db : DB) (id : Int) : Except Str Account :=
  match QueryRowScan (db.accounts.filter (fun r => r.id = id)) accountDests with
  | .error _ => .error ("could not get account: ".toList ++ FormatInt id)
  | .ok vals =>
    match accountOfScan vals with
    | some a => .ok a
    | none => .error ("could not get account: ".toList ++ FormatInt id)

/-- `PostgresStore.GetByNumber`: `SELECT * FROM accounts WHERE number = $1`. -/
def PostgresStore.GetByNumber (db : DB) (number : Int) : Except Str Account :=
  match QueryRowScan (db.accounts.filter (fun r => r.number = number)) accountDests with
  | .error _ => .error ("could not get account: ".toList ++ FormatInt number)
  | .ok vals =>
    match accountOfScan vals with
    | some a => .ok a
    | none => .error ("could not get account: ".toList ++ FormatInt number)

/-- `PostgresStore.Save`: the insert names every column but `id`. -/
def PostgresStore.Save (db : DB) (a : Account) : DB × Option Str :=
  ({ nextId := db.nextId + 1
     accounts := db.accounts ++
       [⟨db.nextId, a.FirstName, a.LastName, a.Number, a.Password, a.Balance, a.CreatedAt⟩] },
   none)

/-- `PostgresStore.Delete`. -/
def PostgresStore.Delete (db : DB) (id : Int) : DB × Option Str :=
  ({ db with accounts := db.accounts.filter (fun r => r.id ≠ id) }, none)

/-- `PostgresStore.Update`: every column but `id` and `password` is set. -/
def PostgresStore.Update (db : DB) (a : Account) : DB × Option Str :=
  ({ db with accounts := db.accounts.map (fun r =>
      if r.id = a.ID then
        { r with first_name := a.FirstName, last_name := a.LastName, number := a.Number,
                 balance := a.Balance, created_at := a.CreatedAt }
      else r) }, none)

/-- `PostgresStore.List`: the scan of the first row that fails ends the loop. -/
def PostgresStore.List (db : DB) : Except Str (List Account) :=
  db.accounts.foldr (fun r acc =>
    match Scan r.columns accountDests with
    | .error e => .error e
    | .ok vals =>
      match accountOfScan vals, acc with
      | some a, .ok as => .ok (a :: as)
      | some _, .error e => .error e
      | none, _ => .error "sql: Scan error".toList) (.ok [])

/-- The `PostgresStore` as a `Persistence`. -/
def PostgresStore.asPersistence : Persistence DB where
  Save := PostgresStore.Save
  Delete := PostgresStore.Delete
  Update := PostgresStore.Update
  Get := PostgresStore.Get
  List := PostgresStore.List
  GetByNumber := PostgresStore.GetByNumber

/-! ## api.go -/

/-- `WriteJSON`: the writer afterwards and the error of `Encode`, which is nil
for the documents this program writes. -/
def WriteJSON (w : ResponseWriter) (status : Nat) (v : JDoc) : ResponseWriter × Option Str :=
  let w1 := { w with header := Header.Add w.header hContentType "application/json".toList }
  let w2 := w1.WriteHeader status
  ({ w2 with body := w2.body ++ [v] }, none)

/-- `PermissionDenied`. -/
def PermissionDenied (w : ResponseWriter) : ResponseWriter :=
  let w1 := { w with
    header := Header.Set w.header hWWWAuthenticate "Basic realm=\"Restricted\"".toList }
  (WriteJSON w1 StatusUnauthorized (APIError "Permission denied".toList)).1

/-- `generateJWT`: the token string and the error of `SignedString`. `Unix()`
returns an int64. -/
def generateJWT (env : Env) (now : Int) (account : Account) : Str × Option Str :=
  let secret := env.JWT_SECRET
  let claims : List (Str × Field) :=
    [(keyExpiresAt, .int64 (wrapInt64 (now + 15 * 60))), (keyAccount, .int64 account.Number)]
  SignedString env algHS256 claims secret

/-- `validateJWT`. -/
def validateJWT (env : Env) (now : Int) (tokenString : Str) : Except JwtError Token :=
  let secret := env.JWT_SECRET
  match Parse env now tokenString secret with
  | .error err => .error err
  | .ok token => .ok token

/-- `HashPassword`. -/
def HashPassword (env : Env) (salt : Nat) (password : Str) : Str × Option Str :=
  env.bcryptGenerate password salt

/-- `CompareHashedPassword`. -/
def CompareHashedPassword (env : Env) (passwd hash : Str) : Bool :=
  env.bcryptCompare hash passwd

/-- How a request behind `WithJWTAuth` ends: the wrapped handler was called
(with its result), `PermissionDenied` wrote the response, or the goroutine
panicked. -/
inductive Outcome (β : Type) where
  | served (result : β)
  | denied (w : ResponseWriter)
  | panicked
  deriving DecidableEq, Repr

/-- `WithJWTAuth`: the handler it returns, run on a writer, a request and a
store state. -/
def WithJWTAuth {σ β : Type} (env : Env) (now : Int)
    (handlerFunc : ResponseWriter → Request → σ → β) (s : Persistence σ)
    (w : ResponseWriter) (r : Request) (st : σ) : Outcome β :=
  let authHeader := r.Header.Get hAuthorization
  if authHeader.length = 0 then .denied (PermissionDenied w)
  else
    match validateJWT env now (r.Header.Get hAuthorization) with
    | .error _ => .denied (PermissionDenied w)
    | .ok token =>
      if token.Valid = false then .denied (PermissionDenied w)
      else
        let userId := (Atoi ((mapGet r.Vars keyId).getD [])).1
        match s.Get st userId with
        | .error _ => .denied (PermissionDenied w)
        | .ok acc =>
          match mapGet token.Claims keyAccount with
          | some (.float64 f) =>
            if acc.Number ≠ int64OfFloat64 f then .denied (PermissionDenied w)
            else .served (handlerFunc w r st)
          | _ => .panicked

/-- What an `apiFunc` leaves behind: the writer, the store and its error. -/
structure Reply (σ : Type) where
  w : ResponseWriter
  store : σ
  err : Option Str

/-- The type `apiFunc`, with the store made explicit. -/
abbrev apiFunc (σ : Type) := ResponseWriter → Request → σ → Reply σ

/-- `httpHandler`. -/
def httpHandler {σ : Type} (f : apiFunc σ) : ResponseWriter → Request → σ → ResponseWriter × σ :=
  fun w r st =>
    let rep := f w r st
    match rep.err with
    | some err => ((WriteJSON rep.w StatusBadRequest (APIError err)).1, rep.store)
    | none => (rep.w, rep.store)

/-- `APIServer.login`. -/
def APIServer.login {σ : Type} (env : Env) (amb : Ambient) (store : Persistence σ) : apiFunc σ :=
  fun w r st =>
    match env.decodeLoginRequest r.Body with
    | .error err => ⟨w, st, some err⟩
    | .ok loginRequest =>
      match store.GetByNumber st loginRequest.Number with
      | .error err => ⟨w, st, some err⟩
      | .ok account =>
        if CompareHashedPassword env loginRequest.Password account.Password = false then
          let out := WriteJSON w StatusUnauthorized (APIError "Incorrect password!".toList)
          ⟨out.1, st, out.2⟩
        else
          let tokenString := (generateJWT env amb.now account).1
          let w1 := { w with
            header := Header.Set w.header hAuthorization ("Bearer ".toList ++ tokenString) }
          let out := WriteJSON w1 StatusOK (.obj loginRequest.fields)
          ⟨out.1, st, out.2⟩

/-- `APIServer.list`. A nil slice, which Go encodes as `null`, is not told apart
from an empty one. -/
def APIServer.list {σ : Type} (store : Persistence σ) : apiFunc σ :=
  fun w _ st =>
    match store.List st with
    | .error err => ⟨w, st, some err⟩
    | .ok accounts =>
      let out := WriteJSON w StatusOK (.arr (accounts.map Account.fields))
      ⟨out.1, st, out.2⟩

/-- `APIServer.get`. -/
def APIServer.get {σ : Type} (store : Persistence σ) : apiFunc σ :=
  fun w r st =>
    let id := (Atoi ((mapGet r.Vars keyId).getD [])).1
    match store.Get st id with
    | .error err => ⟨w, st, some err⟩
    | .ok account =>
      let out := WriteJSON w StatusOK (.obj account.fields)
      ⟨out.1, st, out.2⟩

/-- `APIServer.post`, the create handler. -/
def APIServer.post {σ : Type} (env : Env) (amb : Ambient) (store : Persistence σ) : apiFunc σ :=
  fun w r st =>
    match env.decodeCreateAccountRequest r.Body with
    | .error err => ⟨w, st, some err⟩
    | .ok createAccReq =>
      let hashedPasswd := (HashPassword env amb.salt createAccReq.Password).1
      let account := NewAccount createAccReq.FirstName createAccReq.LastName hashedPasswd amb
      match store.Save st account with
      | (st1, some err) => ⟨w, st1, some err⟩
      | (st1, none) =>
        match generateJWT env amb.now account with
        | (_, some err) => ⟨w, st1, some err⟩
        | (tokenString, none) =>
          let w1 := { w with
            header := Header.Set w.header hAuthorization ("Bearer ".toList ++ tokenString) }
          let out := WriteJSON w1 StatusOK (.obj account.fields)
          ⟨out.1, st1, out.2⟩

/-- `APIServer.delete`. -/
def APIServer.delete {σ : Type} (store : Persistence σ) : apiFunc σ :=
  fun w r st =>
    let id := (Atoi ((mapGet r.Vars keyId).getD [])).1
    match store.Delete st id with
    | (st1, some err) => ⟨w, st1, some err⟩
    | (st1, none) =>
      let out := WriteJSON w StatusOK (.obj [("deleted".toList, .num id)])
      ⟨out.1, st1, out.2⟩

/-- `APIServer.transfer`. -/
def APIServer.transfer {σ : Type} (env : Env) : apiFunc σ :=
  fun w r st =>
    match env.decodeTransferRequest r.Body with
    | .error err => ⟨w, st, some err⟩
    | .ok transferReq =>
      let out := WriteJSON w StatusOK (.obj transferReq.fields)
      ⟨out.1, st, out.2⟩

/-- The routes `APIServer.Run` registers. -/
inductive Endpoint where
  | create
  | login
  | get
  | list
  | delete
  | transfer
  deriving DecidableEq, Repr

/-- The router of `APIServer.Run`: the first route whose path template and method
match, with the path variables it binds (`{id}` matches a non-empty segment). -/
def matchRoute (method : Str) (path : List Str) : Option (Endpoint × List (Str × Str)) :=
  match path with
  | [a] =>
    if a = "create".toList ∧ method = "POST".toList then some (.create, [])
    else if a = "login".toList ∧ method = "POST".toList then some (.login, [])
    else if a = "list_accounts".toList ∧ method = "GET".toList then some (.list, [])
    else if a = "transfer".toList ∧ method = "POST".toList then some (.transfer, [])
    else none
  | [a, id] =>
    if a = "accounts".toList ∧ id ≠ [] ∧ method = "GET".toList then some (.get, [(keyId, id)])
    else none
  | [a, id, b] =>
    if a = "accounts".toList ∧ id ≠ [] ∧ b = "delete".toList ∧ method = "DELETE".toList then
      some (.delete, [(keyId, id)])
    else none
  | _ => none

/-- The handler `APIServer.Run` registers for each route. -/
def APIServer.handler {σ : Type} (env : Env) (amb : Ambient) (store : Persistence σ)
    (e : Endpoint) (w : ResponseWriter) (r : Request) (st : σ) : Outcome (ResponseWriter × σ) :=
  match e with
  | .create => .served (httpHandler (APIServer.post env amb store) w r st)
  | .login => .served (httpHandler (APIServer.login env amb store) w r st)
  | .get => WithJWTAuth env amb.now (httpHandler (APIServer.get store)) store w r st
  | .list => .served (httpHandler (APIServer.list store) w r st)
  | .delete => WithJWTAuth env amb.now (httpHandler (APIServer.delete store)) store w r st
  | .transfer => WithJWTAuth env amb.now (httpHandler (APIServer.transfer env)) store w r st

/-- One request served by the router of `APIServer.Run`; `none` when no route matches. -/
def APIServer.Run {σ : Type} (env : Env) (amb : Ambient) (store : Persistence σ)
    (r : Request) (st : σ) : Option (Outcome (ResponseWriter × σ)) :=
  match matchRoute r.Method r.Path with
  | none => none
  | some (e, vars) =>
    some (APIServer.handler env amb store e ResponseWriter.fresh { r with Vars := vars } st)

/-- The account number `WithJWTAuth` reads from a token,
`int64(claims["account"].(float64))`, when the claim holds a float64. -/
def boundAccount (token : Token) : Option Int :=
  match mapGet token.Claims keyAccount with
  | some (.float64 f) => some (int64OfFloat64 f)
  | _ => none

/-! ## Concrete inputs -/

/-- An in-memory `Persistence`: the accounts in a list, ids counted from 1. -/
def memStore : Persistence (List Account) where
  Save := fun st a => (st ++ [{ a with ID := (st.length : Int) + 1 }], none)
  Delete := fun st id => (st.filter (fun a => a.ID ≠ id), none)
  Update := fun st a => (st.map (fun b => if b.ID = a.ID then a else b), none)
  Get := fun st id =>
    match st.find? (fun a => a.ID = id) with
    | some a => .ok a
    | none => .error "not found".toList
  List := fun st => .ok st
  GetByNumber := fun st n =>
    match st.find? (fun a => a.Number = n) with
    | some a => .ok a
    | none => .error "not found".toList

/-- A body decoder for the concrete requests below. It reads the body with
`jsonUnmarshal`, so a numeric field passes through float64; that is exact for
the integer literals those requests carry. The theorems take the decoders as
arbitrary functions (fields of `Env`). -/
def decodeFields (body : Str) : Except Str GoMap :=
  match jsonUnmarshal body with
  | some m => .ok m
  | none => .error "invalid character".toList

/-- An environment for evaluating the definitions on concrete inputs: the MAC is
a checksum of key and message, the password hash keeps the password behind a
marker. -/
def demoEnv : Env where
  JWT_SECRET := "s3cret".toList
  hmac := fun _ key msg => [key.length, msg.length, (strToBytes msg).sum, 17]
  bcryptGenerate := fun p _ => ('#' :: p, none)
  bcryptCompare := fun h p => decide (h = '#' :: p)
  decodeCreateAccountRequest := fun body =>
    match decodeFields body with
    | .error e => .error e
    | .ok m =>
      match mapGet m "firstName".toList, mapGet m "lastName".toList,
        mapGet m "password".toList with
      | some (.string f), some (.string l), some (.string p) => .ok ⟨f, l, p⟩
      | _, _, _ => .error "json: cannot unmarshal".toList
  decodeLoginRequest := fun body =>
    match decodeFields body with
    | .error e => .error e
    | .ok m =>
      match mapGet m "accountNumber".toList, mapGet m "password".toList with
      | some (.float64 n), some (.string p) => .ok ⟨int64OfFloat64 n, p⟩
      | _, _ => .error "json: cannot unmarshal".toList
  decodeTransferRequest := fun body =>
    match decodeFields body with
    | .error e => .error e
    | .ok m =>
      match mapGet m "toAccount".toList, mapGet m "amount".toList with
      | some (.float64 t), some (.float64 a) => .ok ⟨int64OfFloat64 t, int64OfFloat64 a⟩
      | _, _ => .error "json: cannot unmarshal".toList

def demoAmbient : Ambient := ⟨1700000000, 1700000000, 123456789, 7⟩

/-- Account A: id 1, number 100. -/
def accountA : Account := ⟨1, "Ann".toList, "Lee".toList, 100, "#pwA".toList, 0, 0⟩

/-- Account B: id 2, number 200. -/
def accountB : Account := ⟨2, "Bob".toList, "Ray".toList, 200, "#pwB".toList, 0, 0⟩

/-- A request with the given `Authorization` header value and path id. -/
def authRequest (method : Str) (path : List Str) (auth id : Str) : Request :=
  { Method := method, Path := path, Header := [(hAuthorization, [auth])],
    Vars := [(keyId, id)], Body := [] }

/-! ## Lemmas: decimal numerals -/

theorem digitChar_isDigit : ∀ d, d < 10 → isDigit (digitChar d) = true := by decide

theorem digitVal_digitChar : ∀ d, d < 10 → digitVal (digitChar d) = d := by decide

theorem digitChar_ne_zero : ∀ d, d < 10 → d ≠ 0 → digitChar d ≠ '0' := by decide

theorem digitsValue_append (ds : Str) (c : Char) :
    digitsValue (ds ++ [c]) = digitsValue ds * 10 + digitVal c := by
  simp [digitsValue, List.foldl_append]

theorem formatNatAux_digits (fuel : Nat) :
    ∀ n, n < fuel → ∀ c ∈ formatNatAux fuel n, isDigit c = true := by
  induction fuel with
  | zero => intro n h; omega
  | succ fuel ih =>
    intro n h c hc
    unfold formatNatAux at hc
    split at hc
    · rename_i h10
      simp only [List.mem_singleton] at hc
      rw [hc]; exact digitChar_isDigit n h10
    · rename_i h10
      rcases List.mem_append.mp hc with h1 | h1
      · exact ih (n / 10) (by omega) c h1
      · simp only [List.mem_singleton] at h1
        rw [h1]; exact digitChar_isDigit _ (Nat.mod_lt _ (by norm_num))

theorem formatNatAux_value (fuel : Nat) :
    ∀ n, n < fuel → digitsValue (formatNatAux fuel n) = n := by
  induction fuel with
  | zero => intro n h; omega
  | succ fuel ih =>
    intro n h
    unfold formatNatAux
    split
    · rename_i h10
      simp [digitsValue, digitVal_digitChar n h10]
    · rename_i h10
      rw [digitsValue_append, ih (n / 10) (by omega),
        digitVal_digitChar _ (Nat.mod_lt _ (by norm_num))]
      omega

theorem formatNatAux_head (fuel : Nat) :
    ∀ n, n < fuel → n ≠ 0 → ∃ c cs, formatNatAux fuel n = c :: cs ∧ c ≠ '0' := by
  induction fuel with
  | zero => intro n h; omega
  | succ fuel ih =>
    intro n h h0
    unfold formatNatAux
    split
    · rename_i h10
      exact ⟨digitChar n, [], rfl, digitChar_ne_zero n h10 h0⟩
    · rename_i h10
      obtain ⟨c, cs, hc, hne⟩ := ih (n / 10) (by omega) (by omega)
      exact ⟨c, cs ++ [digitChar (n % 10)], by rw [hc]; rfl, hne⟩

theorem formatNat_digits (n : Nat) : ∀ c ∈ formatNat n, isDigit c = true :=
  formatNatAux_digits (n + 1) n (Nat.lt_succ_self n)

theorem formatNat_value (n : Nat) : digitsValue (formatNat n) = n :=
  formatNatAux_value (n + 1) n (Nat.lt_succ_self n)

theorem formatNat_ne_nil (n : Nat) : formatNat n ≠ [] := by
  unfold formatNat formatNatAux
  split
  · simp
  · simp

theorem formatNat_no_leading_zero (n : Nat) :
    ¬ (1 < (formatNat n).length ∧ (formatNat n).head? = some '0') := by
  rintro ⟨hlen, hhead⟩
  by_cases h0 : n = 0
  · subst h0
    revert hlen; decide
  · obtain ⟨c, cs, hc, hne⟩ := formatNatAux_head (n + 1) n (Nat.lt_succ_self n) h0
    unfold formatNat at hhead
    rw [hc] at hhead
    simp only [List.head?_cons, Option.some.injEq] at hhead
    exact hne hhead

theorem spanDigits_append (ds rest : Str) (hds : ∀ c ∈ ds, isDigit c = true)
    (hrest : ∀ c t, rest = c :: t → isDigit c = false) :
    spanDigits (ds ++ rest) = (ds, rest) := by
  induction ds with
  | nil =>
    cases rest with
    | nil => rfl
    | cons c t => simp [spanDigits, hrest c t rfl]
  | cons d ds ih =>
    have hd : isDigit d = true := hds d (List.mem_cons_self _ _)
    have ih1 := ih (fun c hc => hds c (List.mem_cons_of_mem _ hc))
    simp [spanDigits, hd, ih1]

theorem bitLengthAux_le (fuel : Nat) : ∀ n k, n < 2 ^ k → bitLengthAux fuel n ≤ k := by
  induction fuel with
  | zero => intro n k _; simp [bitLengthAux]
  | succ fuel ih =>
    intro n k h
    unfold bitLengthAux
    split
    · omega
    · rename_i hn
      cases k with
      | zero => simp at h; exact absurd h hn
      | succ k =>
        have : n / 2 < 2 ^ k := by
          rw [Nat.pow_succ] at h
          omega
        have := ih (n / 2) k this
        omega

theorem bitLength_le (n k : Nat) (h : n < 2 ^ k) : bitLength n ≤ k :=
  bitLengthAux_le n n k h

theorem bitLength_one : bitLength 1 = 1 := by decide

theorem float64Exponent_le (n k : Nat) (h : n < 2 ^ k) :
    -1074 ≤ float64Exponent n 1 ∧ float64Exponent n 1 ≤ (k : Int) - 53 := by
  have hb := bitLength_le n k h
  unfold float64Exponent
  simp only [bitLength_one]
  split <;> omega

/-- At an exponent that is not positive an integer is not rounded. -/
theorem roundToExponent_exact (n : Nat) (e : Int) (h1 : -1074 ≤ e) (h2 : e ≤ 0)
    (hn : n < 2 ^ 1024) : roundToExponent n 1 e = some (n * 2 ^ 1074) := by
  have he : e.toNat = 0 := by omega
  have hsum : (-e).toNat + (e + 1074).toNat = 1074 := by omega
  have hval : n * 2 ^ (-e).toNat * 2 ^ (e + 1074).toNat = n * 2 ^ 1074 := by
    rw [Nat.mul_assoc, ← Nat.pow_add, hsum]
  have hlt : n * 2 ^ 1074 < 2 ^ 2098 := by
    have : (2 : Nat) ^ 2098 = 2 ^ 1024 * 2 ^ 1074 := by rw [← Nat.pow_add]
    rw [this]
    exact Nat.mul_lt_mul_of_pos_right hn (Nat.two_pow_pos 1074)
  unfold roundToExponent
  simp only [he, Nat.pow_zero, Nat.mul_one, Nat.div_one, Nat.mod_one, Nat.mul_zero]
  have hcond : ¬ (1 < 0 ∨ (0 = 1 ∧ n * 2 ^ (-e).toNat % 2 = 1)) := by omega
  rw [if_neg hcond, hval, if_pos hlt]

theorem nearestFloat64_exact (n : Nat) (h : n < 2 ^ 53) :
    nearestFloat64 n 1 = some (n * 2 ^ 1074) := by
  obtain ⟨h1, h2⟩ := float64Exponent_le n 53 h
  unfold nearestFloat64
  refine roundToExponent_exact n _ h1 (by omega) ?_
  exact lt_of_lt_of_le h (Nat.pow_le_pow_right (by norm_num) (by norm_num))

/-- Every 64-bit magnitude has a nearest float64. -/
theorem nearestFloat64_total (n : Nat) (h : n < 2 ^ 64) : ∃ m, nearestFloat64 n 1 = some m := by
  obtain ⟨h1, h2⟩ := float64Exponent_le n 64 h
  unfold nearestFloat64
  by_cases he : float64Exponent n 1 ≤ 0
  · exact ⟨_, roundToExponent_exact n _ h1 he
      (lt_of_lt_of_le h (Nat.pow_le_pow_right (by norm_num) (by norm_num)))⟩
  · generalize float64Exponent n 1 = e at h1 h2 he
    have hneg : (-e).toNat = 0 := by omega
    unfold roundToExponent
    simp only [hneg, Nat.pow_zero, Nat.mul_one, Nat.one_mul]
    have hq : n / 2 ^ e.toNat ≤ n := Nat.div_le_self _ _
    have hm : (if 2 ^ e.toNat < 2 * (n % 2 ^ e.toNat) ∨
        (2 * (n % 2 ^ e.toNat) = 2 ^ e.toNat ∧ n / 2 ^ e.toNat % 2 = 1)
        then n / 2 ^ e.toNat + 1 else n / 2 ^ e.toNat) ≤ 2 ^ 64 := by
      split <;> omega
    have hp : 2 ^ (e + 1074).toNat ≤ 2 ^ 1085 :=
      Nat.pow_le_pow_right (by norm_num) (by omega)
    have hlt : (if 2 ^ e.toNat < 2 * (n % 2 ^ e.toNat) ∨
        (2 * (n % 2 ^ e.toNat) = 2 ^ e.toNat ∧ n / 2 ^ e.toNat % 2 = 1)
        then n / 2 ^ e.toNat + 1 else n / 2 ^ e.toNat) * 2 ^ (e + 1074).toNat < 2 ^ 2098 := by
      refine lt_of_le_of_lt (Nat.mul_le_mul hm hp) ?_
      rw [← Nat.pow_add]
      exact Nat.pow_lt_pow_right (by norm_num) (by norm_num)
    rw [if_pos hlt]
    exact ⟨_, rfl⟩

theorem wrapInt64_isInt64 (i : Int) : isInt64 (wrapInt64 i) := by
  unfold isInt64 wrapInt64
  omega

theorem float64OfInt_exact (i : Int) (h : i.natAbs < 2 ^ 53) :
    float64OfInt i = some (Float64.ofInt i) := by
  unfold float64OfInt Float64.ofInt
  rw [nearestFloat64_exact _ h]
  simp only [Option.some.injEq, Float64.mk.injEq, Nat.cast_mul]
  split
  · have hk : (i.natAbs : Int) = -i := by omega
    rw [hk, neg_mul, neg_neg]
  · have hk : (i.natAbs : Int) = i := by omega
    rw [hk]

theorem float64OfInt_total (i : Int) (h : isInt64 i) : ∃ v, float64OfInt i = some v := by
  obtain ⟨v, hv⟩ := nearestFloat64_total i.natAbs (by unfold isInt64 at h; omega)
  exact ⟨_, by unfold float64OfInt; rw [hv]⟩

theorem trunc_ofInt (i : Int) : (Float64.ofInt i).trunc = i := by
  have hpos : (0 : Int) < ((2 ^ 1074 : Nat) : Int) :=
    Int.ofNat_lt.mpr (Nat.two_pow_pos 1074)
  have habs : (i * ((2 ^ 1074 : Nat) : Int)).natAbs / 2 ^ 1074 = i.natAbs := by
    rw [Int.natAbs_mul, Int.natAbs_ofNat]
    exact Nat.mul_div_cancel _ (Nat.two_pow_pos 1074)
  unfold Float64.trunc Float64.ofInt
  simp only [habs]
  by_cases hi : i < 0
  · have : i * ((2 ^ 1074 : Nat) : Int) < 0 := mul_neg_of_neg_of_pos hi hpos
    rw [if_pos this]
    omega
  · have : ¬ i * ((2 ^ 1074 : Nat) : Int) < 0 := by
      have : 0 ≤ i * ((2 ^ 1074 : Nat) : Int) := mul_nonneg (by omega) hpos.le
      exact not_lt.mpr this
    rw [if_neg this]
    omega

theorem int64OfFloat64_ofInt (i : Int) (h : isInt64 i) : int64OfFloat64 (Float64.ofInt i) = i := by
  unfold int64OfFloat64
  rw [trunc_ofInt, if_pos h]

theorem scanFraction_none (rest : Str) (h : endsNumber rest) :
    scanFraction rest = some ([], rest) := by
  cases rest with
  | nil => rfl
  | cons c t =>
    obtain ⟨-, h2, -, -⟩ := h c t rfl
    simp [scanFraction, h2]

theorem scanExponent_none (rest : Str) (h : endsNumber rest) :
    scanExponent rest = some (0, rest) := by
  cases rest with
  | nil => rfl
  | cons c t =>
    obtain ⟨-, -, h3, h4⟩ := h c t rfl
    simp [scanExponent, h3, h4]

theorem scanUnsigned_formatNat (n m : Nat) (rest : Str) (h : nearestFloat64 n 1 = some m)
    (hrest : endsNumber rest) :
    scanUnsigned (formatNat n ++ rest) = some (m, rest) := by
  unfold scanUnsigned
  rw [spanDigits_append _ _ (formatNat_digits n) (fun c t hc => (hrest c t hc).1)]
  simp only [formatNat_ne_nil, if_false, formatNat_no_leading_zero, scanFraction_none _ hrest,
    scanExponent_none _ hrest, List.append_nil, formatNat_value, List.length_nil]
  simp [h]

theorem formatNat_head_digit (n : Nat) : ∃ c cs, formatNat n = c :: cs ∧ isDigit c = true := by
  cases hf : formatNat n with
  | nil => exact absurd hf (formatNat_ne_nil n)
  | cons c cs =>
    exact ⟨c, cs, rfl, formatNat_digits n c (by rw [hf]; exact List.mem_cons_self _ _)⟩

theorem scanNumber_FormatInt (i : Int) (v : Float64) (rest : Str)
    (h : float64OfInt i = some v) (hrest : endsNumber rest) :
    scanNumber (FormatInt i ++ rest) = some (v, rest) := by
  unfold float64OfInt at h
  cases hr : nearestFloat64 i.natAbs 1 with
  | none => rw [hr] at h; cases h
  | some u =>
    rw [hr] at h
    simp only [Option.some.injEq] at h
    have hscan := scanUnsigned_formatNat i.natAbs u rest hr hrest
    unfold FormatInt
    by_cases hneg : i < 0
    · rw [if_pos hneg] at h ⊢
      simp only [List.cons_append, scanNumber, if_true, hscan, h]
    · rw [if_neg hneg] at h ⊢
      obtain ⟨c, cs, hc, hd⟩ := formatNat_head_digit i.natAbs
      rw [hc] at hscan ⊢
      have h5 : c ≠ '-' := by rintro rfl; revert hd; decide
      simp only [List.cons_append] at hscan ⊢
      simp only [scanNumber, h5, if_false, hscan, h]

theorem FormatInt_head (i : Int) :
    ∃ c cs, FormatInt i = c :: cs ∧ (isDigit c = true ∨ c = '-') := by
  unfold FormatInt
  split
  · exact ⟨'-', _, rfl, Or.inr rfl⟩
  · obtain ⟨c, cs, hc, hd⟩ := formatNat_head_digit i.natAbs
    exact ⟨c, cs, hc, Or.inl hd⟩

theorem skipSpace_FormatInt (i : Int) (rest : Str) :
    skipSpace (FormatInt i ++ rest) = FormatInt i ++ rest := by
  obtain ⟨c, cs, hc, hd⟩ := FormatInt_head i
  rw [hc]
  have hs : isSpace c = false := by
    rcases hd with hd | hd
    · cases hsp : isSpace c with
      | false => rfl
      | true =>
        simp only [isSpace, decide_eq_true_eq] at hsp
        rcases hsp with h | h | h | h <;> (subst h; revert hd; decide)
    · subst hd; decide
  simp [skipSpace, hs]

/-- Reading back the decimal rendering of an integer gives its float64. -/
theorem scanValue_FormatInt (fuel depth : Nat) (i : Int) (v : Float64) (rest : Str)
    (h : float64OfInt i = some v) (hrest : endsNumber rest) :
    scanValue (fuel + 1) depth (FormatInt i ++ rest) = some (Value.float64 v, rest) := by
  have hnum := scanNumber_FormatInt i v rest h hrest
  obtain ⟨c, cs, hc, hd⟩ := FormatInt_head i
  rw [hc] at hnum ⊢
  have h0 : c ≠ Char.ofNat 123 := by
    rcases hd with hd | hd
    · rintro rfl; revert hd; decide
    · subst hd; decide
  have h1 : c ≠ '[' := by
    rcases hd with hd | hd
    · rintro rfl; revert hd; decide
    · subst hd; decide
  have h2 : c ≠ '"' := by
    rcases hd with hd | hd
    · rintro rfl; revert hd; decide
    · subst hd; decide
  have h3 : c ≠ 't' := by
    rcases hd with hd | hd
    · rintro rfl; revert hd; decide
    · subst hd; decide
  have h4 : c ≠ 'f' := by
    rcases hd with hd | hd
    · rintro rfl; revert hd; decide
    · subst hd; decide
  have h5 : c ≠ 'n' := by
    rcases hd with hd | hd
    · rintro rfl; revert hd; decide
    · subst hd; decide
  simp only [List.cons_append] at hnum ⊢
  simp only [scanValue, h0, h1, h2, h3, h4, h5, if_false, hnum]

/-! ## Lemmas: base64 segments -/

theorem b64Index_b64Char : ∀ i, i < 64 → b64Index (b64Char i) = some i := by decide

theorem b64Char_ne_dot : ∀ i, i < 64 → b64Char i ≠ '.' := by decide

theorem b64DecodeQuanta_b64Encode (bs : List Nat) :
    b64DecodeQuanta (b64Encode bs) = some (bs.map (· % 256)) := by
  induction bs using b64Encode.induct with
  | case1 a b c rest ih =>
    simp only [b64Encode, b64DecodeQuanta]
    rw [b64Index_b64Char _ (Nat.mod_lt _ (by norm_num)),
      b64Index_b64Char _ (Nat.mod_lt _ (by norm_num)),
      b64Index_b64Char _ (Nat.mod_lt _ (by norm_num)),
      b64Index_b64Char _ (Nat.mod_lt _ (by norm_num)), ih]
    simp only [List.map_cons, Option.some.injEq, List.cons.injEq, and_true]
    refine ⟨?_, ?_, ?_⟩ <;> omega
  | case2 a b =>
    simp only [b64Encode, b64DecodeQuanta]
    rw [b64Index_b64Char _ (Nat.mod_lt _ (by norm_num)),
      b64Index_b64Char _ (Nat.mod_lt _ (by norm_num)),
      b64Index_b64Char _ (Nat.mod_lt _ (by norm_num))]
    simp only [List.map_cons, List.map_nil, Option.some.injEq, List.cons.injEq, and_true]
    refine ⟨?_, ?_⟩ <;> omega
  | case3 a =>
    simp only [b64Encode, b64DecodeQuanta]
    rw [b64Index_b64Char _ (Nat.mod_lt _ (by norm_num)),
      b64Index_b64Char _ (Nat.mod_lt _ (by norm_num))]
    simp only [List.map_cons, List.map_nil, Option.some.injEq, List.cons.injEq, and_true]
    omega
  | case4 => rfl

theorem b64Encode_no_dot (bs : List Nat) : ∀ c ∈ b64Encode bs, c ≠ '.' := by
  induction bs using b64Encode.induct with
  | case1 a b c rest ih =>
    intro x hx
    simp only [b64Encode, List.mem_cons] at hx
    rcases hx with h | h | h | h | h
    · rw [h]; exact b64Char_ne_dot _ (Nat.mod_lt _ (by norm_num))
    · rw [h]; exact b64Char_ne_dot _ (Nat.mod_lt _ (by norm_num))
    · rw [h]; exact b64Char_ne_dot _ (Nat.mod_lt _ (by norm_num))
    · rw [h]; exact b64Char_ne_dot _ (Nat.mod_lt _ (by norm_num))
    · exact ih x h
  | case2 a b =>
    intro x hx
    simp only [b64Encode, List.mem_cons, List.mem_singleton, List.not_mem_nil, or_false] at hx
    rcases hx with h | h | h
    · rw [h]; exact b64Char_ne_dot _ (Nat.mod_lt _ (by norm_num))
    · rw [h]; exact b64Char_ne_dot _ (Nat.mod_lt _ (by norm_num))
    · rw [h]; exact b64Char_ne_dot _ (Nat.mod_lt _ (by norm_num))
  | case3 a =>
    intro x hx
    simp only [b64Encode, List.mem_cons, List.mem_singleton, List.not_mem_nil, or_false] at hx
    rcases hx with h | h
    · rw [h]; exact b64Char_ne_dot _ (Nat.mod_lt _ (by norm_num))
    · rw [h]; exact b64Char_ne_dot _ (Nat.mod_lt _ (by norm_num))
  | case4 => intro x hx; cases hx

theorem b64DecodeQuanta_alphabet :
    ∀ (s : Str) (bs : List Nat), b64DecodeQuanta s = some bs → ∀ c ∈ s, b64Index c ≠ none
  | c0 :: c1 :: c2 :: c3 :: rest, bs, h, c, hc => by
    simp only [b64DecodeQuanta] at h
    cases h0 : b64Index c0 <;> cases h1 : b64Index c1 <;> cases h2 : b64Index c2 <;>
      cases h3 : b64Index c3 <;> cases h4 : b64DecodeQuanta rest <;>
      simp only [h0, h1, h2, h3, h4] at h <;> try cases h
    simp only [List.mem_cons] at hc
    rcases hc with h | h | h | h | h
    · rw [h, h0]; simp
    · rw [h, h1]; simp
    · rw [h, h2]; simp
    · rw [h, h3]; simp
    · exact b64DecodeQuanta_alphabet rest _ h4 c h
  | [c0, c1, c2], bs, h, c, hc => by
    simp only [b64DecodeQuanta] at h
    cases h0 : b64Index c0 <;> cases h1 : b64Index c1 <;> cases h2 : b64Index c2 <;>
      simp only [h0, h1, h2] at h <;> try cases h
    simp only [List.mem_cons, List.mem_singleton, List.not_mem_nil, or_false] at hc
    rcases hc with h | h | h
    · rw [h, h0]; simp
    · rw [h, h1]; simp
    · rw [h, h2]; simp
  | [c0, c1], bs, h, c, hc => by
    simp only [b64DecodeQuanta] at h
    cases h0 : b64Index c0 <;> cases h1 : b64Index c1 <;>
      simp only [h0, h1] at h <;> try cases h
    simp only [List.mem_cons, List.mem_singleton, List.not_mem_nil, or_false] at hc
    rcases hc with h | h
    · rw [h, h0]; simp
    · rw [h, h1]; simp
  | [_], bs, h, _, _ => by simp [b64DecodeQuanta] at h
  | [], _, _, c, hc => by cases hc

theorem b64Char_ne_break : ∀ i, i < 64 → b64Char i ≠ '\r' ∧ b64Char i ≠ '\n' := by decide

theorem b64Encode_no_break (bs : List Nat) : ∀ c ∈ b64Encode bs, c ≠ '\r' ∧ c ≠ '\n' := by
  induction bs using b64Encode.induct with
  | case1 a b c rest ih =>
    intro x hx
    simp only [b64Encode, List.mem_cons] at hx
    rcases hx with h | h | h | h | h
    · rw [h]; exact b64Char_ne_break _ (Nat.mod_lt _ (by norm_num))
    · rw [h]; exact b64Char_ne_break _ (Nat.mod_lt _ (by norm_num))
    · rw [h]; exact b64Char_ne_break _ (Nat.mod_lt _ (by norm_num))
    · rw [h]; exact b64Char_ne_break _ (Nat.mod_lt _ (by norm_num))
    · exact ih x h
  | case2 a b =>
    intro x hx
    simp only [b64Encode, List.mem_cons, List.mem_singleton, List.not_mem_nil, or_false] at hx
    rcases hx with h | h | h
    · rw [h]; exact b64Char_ne_break _ (Nat.mod_lt _ (by norm_num))
    · rw [h]; exact b64Char_ne_break _ (Nat.mod_lt _ (by norm_num))
    · rw [h]; exact b64Char_ne_break _ (Nat.mod_lt _ (by norm_num))
  | case3 a =>
    intro x hx
    simp only [b64Encode, List.mem_cons, List.mem_singleton, List.not_mem_nil, or_false] at hx
    rcases hx with h | h
    · rw [h]; exact b64Char_ne_break _ (Nat.mod_lt _ (by norm_num))
    · rw [h]; exact b64Char_ne_break _ (Nat.mod_lt _ (by norm_num))
  | case4 => intro x hx; cases hx

theorem b64Decode_b64Encode (bs : List Nat) :
    b64Decode (b64Encode bs) = some (bs.map (· % 256)) := by
  unfold b64Decode
  rw [List.filter_eq_self.mpr, b64DecodeQuanta_b64Encode]
  intro c hc
  simpa using b64Encode_no_break bs c hc

/-- A decoded segment consists of line breaks and characters of the alphabet only. -/
theorem b64Decode_alphabet (s : Str) (bs : List Nat) (h : b64Decode s = some bs) :
    ∀ c ∈ s, c = '\r' ∨ c = '\n' ∨ b64Index c ≠ none := by
  intro c hc
  by_cases h1 : c = '\r'
  · exact Or.inl h1
  · by_cases h2 : c = '\n'
    · exact Or.inr (Or.inl h2)
    · refine Or.inr (Or.inr ?_)
      refine b64DecodeQuanta_alphabet _ bs h c ?_
      simp [List.mem_filter, hc, h1, h2]

theorem bytesToStr_strToBytes (s : Str) (h : ∀ c ∈ s, c.toNat < 256) :
    bytesToStr ((strToBytes s).map (· % 256)) = s := by
  induction s with
  | nil => rfl
  | cons c s ih =>
    have hc := h c (List.mem_cons_self _ _)
    have ih1 := ih (fun x hx => h x (List.mem_cons_of_mem _ hx))
    simp only [bytesToStr, strToBytes, List.map_cons, List.map_map] at ih1 ⊢
    rw [ih1, Nat.mod_eq_of_lt hc, Char.ofNat_toNat]

/-! ## Lemmas: strings.Split -/

theorem splitOn_ne_nil (sep : Char) (s : Str) : splitOn sep s ≠ [] := by
  cases s with
  | nil => simp [splitOn]
  | cons c cs =>
    unfold splitOn
    split
    · simp
    · split <;> simp

theorem splitOn_no_sep (sep : Char) (s : Str) (h : ∀ c ∈ s, c ≠ sep) : splitOn sep s = [s] := by
  induction s with
  | nil => rfl
  | cons c cs ih =>
    have hc := h c (List.mem_cons_self _ _)
    have ih1 := ih (fun x hx => h x (List.mem_cons_of_mem _ hx))
    simp [splitOn, hc, ih1]

theorem splitOn_append (sep : Char) (a rest : Str) (h : ∀ c ∈ a, c ≠ sep) :
    splitOn sep (a ++ sep :: rest) = a :: splitOn sep rest := by
  induction a with
  | nil => simp [splitOn]
  | cons c cs ih =>
    have hc := h c (List.mem_cons_self _ _)
    have ih1 := ih (fun x hx => h x (List.mem_cons_of_mem _ hx))
    simp [splitOn, hc, ih1]

theorem splitOn_three (a b c : Str) (ha : ∀ x ∈ a, x ≠ '.') (hb : ∀ x ∈ b, x ≠ '.')
    (hc : ∀ x ∈ c, x ≠ '.') : splitOn '.' (a ++ '.' :: (b ++ '.' :: c)) = [a, b, c] := by
  rw [splitOn_append _ _ _ ha, splitOn_append _ _ _ hb, splitOn_no_sep _ _ hc]

/-! ## Lemmas: the JSON codec on the maps the program marshals -/

theorem scanString_append (k rest : Str)
    (hk : ∀ c ∈ k, c ≠ '"' ∧ c ≠ '\\' ∧ ¬ c.toNat < 32) :
    ∀ fuel, k.length < fuel → scanString fuel (k ++ '"' :: rest) = some (k, rest) := by
  induction k with
  | nil =>
    intro fuel hf
    obtain ⟨f, rfl⟩ : ∃ f, fuel = f + 1 := ⟨fuel - 1, by simp at hf; omega⟩
    simp [scanString]
  | cons c k ih =>
    intro fuel hf
    obtain ⟨f, rfl⟩ : ∃ f, fuel = f + 1 := ⟨fuel - 1, by simp at hf; omega⟩
    obtain ⟨h1, h2, h3⟩ := hk c (List.mem_cons_self _ _)
    have ih1 := ih (fun x hx => hk x (List.mem_cons_of_mem _ hx)) f
      (by simp only [List.length_cons] at hf; omega)
    simp [scanString, h1, h2, h3, ih1]

/-- A key without quote, backslash or control character is read back as it is. -/
theorem scanString_key (k rest : Str)
    (hk : ∀ c ∈ k, c ≠ '"' ∧ c ≠ '\\' ∧ ¬ c.toNat < 32) :
    scanString (k ++ '"' :: rest).length (k ++ '"' :: rest) = some (k, rest) :=
  scanString_append k rest hk _ (by simp only [List.length_append, List.length_cons]; omega)

theorem scanMembers_two (fuel depth : Nat) (k1 k2 : Str) (n e : Int) (vn ve : Float64)
    (hk1 : ∀ c ∈ k1, c ≠ '"' ∧ c ≠ '\\' ∧ ¬ c.toNat < 32)
    (hk2 : ∀ c ∈ k2, c ≠ '"' ∧ c ≠ '\\' ∧ ¬ c.toNat < 32)
    (hn : float64OfInt n = some vn) (he : float64OfInt e = some ve) :
    scanMembers (fuel + 3) depth
      ('"' :: (k1 ++ '"' :: ':' :: (FormatInt n ++ ',' :: '"' ::
        (k2 ++ '"' :: ':' :: (FormatInt e ++ [Char.ofNat 125]))))) =
      some ([(k1, Value.float64 vn), (k2, Value.float64 ve)], []) := by
  have hv1 := scanValue_FormatInt (fuel + 1) depth n vn
    (',' :: '"' :: (k2 ++ '"' :: ':' :: (FormatInt e ++ [Char.ofNat 125]))) hn
    (by intro c t h; cases h; decide)
  have hv2 := scanValue_FormatInt fuel depth e ve [Char.ofNat 125] he
    (by intro c t h; cases h; decide)
  have hc : (',' : Char) ≠ Char.ofNat 125 := by decide
  have hc1 : Char.ofNat 125 ≠ ',' := by decide
  have hs1 : isSpace ':' = false := by decide
  have hs2 : isSpace ',' = false := by decide
  have hs3 : isSpace '"' = false := by decide
  have hs4 : isSpace (Char.ofNat 125) = false := by decide
  simp only [scanMembers, scanString_key _ _ hk1, scanString_key _ _ hk2, skipSpace, hs1, hs2,
    hs3, hs4, skipSpace_FormatInt, hv1, hv2, if_true, if_false, hc, hc1, Bool.false_eq_true]

theorem jsonMarshal_claims (n e : Int) :
    jsonMarshal [(keyExpiresAt, .int64 e), (keyAccount, .int64 n)] =
      Char.ofNat 123 :: '"' :: (keyAccount ++ '"' :: ':' :: (FormatInt n ++ ',' :: '"' ::
        (keyExpiresAt ++ '"' :: ':' :: (FormatInt e ++ [Char.ofNat 125])))) := by
  have h : strLt keyExpiresAt keyAccount = false := by decide
  simp [jsonMarshal, sortMembers, insertMember, h, marshalMembers, marshalValue]

theorem key_safe_account : ∀ c ∈ keyAccount, c ≠ '"' ∧ c ≠ '\\' ∧ ¬ c.toNat < 32 := by decide

theorem key_safe_expiresAt : ∀ c ∈ keyExpiresAt, c ≠ '"' ∧ c ≠ '\\' ∧ ¬ c.toNat < 32 := by
  decide

/-- Decoding the claims `generateJWT` marshals gives both numbers back as float64. -/
theorem jsonUnmarshal_claims (n e : Int) (vn ve : Float64)
    (hn : float64OfInt n = some vn) (he : float64OfInt e = some ve) :
    jsonUnmarshal (jsonMarshal [(keyExpiresAt, .int64 e), (keyAccount, .int64 n)]) =
      some [(keyAccount, Value.float64 vn), (keyExpiresAt, Value.float64 ve)] := by
  rw [jsonMarshal_claims]
  have hne : keyAccount ≠ keyExpiresAt := by decide
  have hq : ('"' : Char) ≠ Char.ofNat 125 := by decide
  have hs0 : isSpace (Char.ofNat 123) = false := by decide
  have hs3 : isSpace '"' = false := by decide
  have hdepth : ¬ maxNestingDepth ≤ 0 := by decide
  obtain ⟨fuel, hfuel⟩ : ∃ fuel, 2 * (Char.ofNat 123 :: '"' :: (keyAccount ++ '"' :: ':' ::
      (FormatInt n ++ ',' :: '"' :: (keyExpiresAt ++ '"' :: ':' ::
        (FormatInt e ++ [Char.ofNat 125]))))).length + 2 = fuel + 4 := by
    refine ⟨2 * (Char.ofNat 123 :: '"' :: (keyAccount ++ '"' :: ':' ::
      (FormatInt n ++ ',' :: '"' :: (keyExpiresAt ++ '"' :: ':' ::
        (FormatInt e ++ [Char.ofNat 125]))))).length - 2, ?_⟩
    simp only [List.length_cons, List.length_append]
    omega
  unfold jsonUnmarshal jsonDecode
  rw [hfuel]
  simp only [skipSpace, hs0, hs3, Bool.false_eq_true, if_false, scanValue, if_true, hdepth, hq,
    scanMembers_two fuel 1 _ _ n e vn ve key_safe_account key_safe_expiresAt hn he]
  simp [mapOfMembers, mapSet, hne]

theorem digit_ascii (c : Char) (h : isDigit c = true) : c.toNat < 256 := by
  simp only [isDigit, decide_eq_true_eq] at h
  omega

theorem FormatInt_ascii (i : Int) : ∀ c ∈ FormatInt i, c.toNat < 256 := by
  intro c hc
  unfold FormatInt at hc
  split at hc
  · simp only [List.mem_cons] at hc
    rcases hc with h | h
    · rw [h]; decide
    · exact digit_ascii c (formatNat_digits _ c h)
  · exact digit_ascii c (formatNat_digits _ c hc)

theorem jsonMarshal_claims_ascii (n e : Int) :
    ∀ c ∈ jsonMarshal [(keyExpiresAt, .int64 e), (keyAccount, .int64 n)], c.toNat < 256 := by
  rw [jsonMarshal_claims]
  have hk1 : ∀ c ∈ keyAccount, c.toNat < 256 := by decide
  have hk2 : ∀ c ∈ keyExpiresAt, c.toNat < 256 := by decide
  intro c hc
  simp only [List.mem_cons, List.mem_append, List.mem_singleton, List.not_mem_nil,
    or_false] at hc
  rcases hc with h | h | h | h | h | h | h | h | h | h | h | h | h
  · rw [h]; decide
  · rw [h]; decide
  · exact hk1 c h
  · rw [h]; decide
  · rw [h]; decide
  · exact FormatInt_ascii n c h
  · rw [h]; decide
  · rw [h]; decide
  · exact hk2 c h
  · rw [h]; decide
  · rw [h]; decide
  · exact FormatInt_ascii e c h
  · rw [h]; decide

/-- The header map `NewWithClaims` builds for HS256. -/
theorem jsonUnmarshal_header :
    jsonUnmarshal (jsonMarshal [(keyTyp, .string "JWT".toList), (keyAlg, .string algHS256)]) =
      some [(keyAlg, .string algHS256), (keyTyp, .string "JWT".toList)] := by rfl

theorem jsonMarshal_header_ascii :
    ∀ c ∈ jsonMarshal [(keyTyp, .string "JWT".toList), (keyAlg, .string algHS256)],
      c.toNat < 256 := by decide

/-! ## Lemmas: signing and parsing -/

/-- A token signed with HS256 under `key` parses under the same key whenever its
claims survive the JSON codec and the validator. -/
theorem Parse_SignedString (env : Env) (now : Int) (claims : List (Str × Field))
    (claims1 : MapClaims) (key : Str)
    (hjson : jsonUnmarshal (jsonMarshal claims) = some claims1)
    (hascii : ∀ c ∈ jsonMarshal claims, c.toNat < 256)
    (hvalid : Validate claims1 now = []) :
    ∃ tok, Parse env now (SignedString env algHS256 claims key).1 key = .ok tok ∧
      tok.Claims = claims1 ∧ tok.Valid = true ∧
      (SignedString env algHS256 claims key).2 = none := by
  have hm : GetSigningMethod algHS256 = some (.HMAC algHS256) := by decide
  have halg : mapGet [(keyAlg, Value.string algHS256), (keyTyp, Value.string "JWT".toList)] keyAlg
      = some (Value.string algHS256) := by simp [mapGet]
  simp only [SignedString, hm, SigningMethod.Sign, EncodeSegment]
  simp only [Parse, ParseUnverified, List.append_assoc, List.cons_append]
  rw [splitOn_three _ _ _ (b64Encode_no_dot _) (b64Encode_no_dot _) (b64Encode_no_dot _)]
  simp only [DecodeSegment, b64Decode_b64Encode, bytesToStr_strToBytes _ hascii,
    bytesToStr_strToBytes _ jsonMarshal_header_ascii, jsonUnmarshal_header, hjson, halg, hm,
    SigningMethod.Verify, hvalid]
  simp [hmacSum]

theorem splitOn_leading (sep : Char) (pre s : Str) (h : ∀ c ∈ pre, c ≠ sep) :
    ∃ p ps, splitOn sep (pre ++ s) = (pre ++ p) :: ps := by
  induction pre with
  | nil =>
    cases hs : splitOn sep s with
    | nil => exact absurd hs (splitOn_ne_nil sep s)
    | cons p ps => exact ⟨p, ps, by simpa using hs⟩
  | cons c pre ih =>
    have hc := h c (List.mem_cons_self _ _)
    obtain ⟨p, ps, hp⟩ := ih (fun x hx => h x (List.mem_cons_of_mem _ hx))
    refine ⟨p, ps, ?_⟩
    rw [List.cons_append, splitOn, if_neg hc, hp, List.cons_append]

theorem b64Decode_space (pre p : Str) (h : ' ' ∈ pre) : b64Decode (pre ++ p) = none := by
  cases hd : b64Decode (pre ++ p) with
  | none => rfl
  | some bs =>
    rcases b64Decode_alphabet _ bs hd ' ' (List.mem_append_left _ h) with h1 | h1 | h1
    · exact absurd h1 (by decide)
    · exact absurd h1 (by decide)
    · exact absurd (by decide : b64Index ' ' = none) h1

/-- A token string that still carries the `Bearer ` scheme is malformed: its
first segment holds a space, which is outside the base64 alphabet. -/
theorem Parse_bearer (env : Env) (now : Int) (t key : Str) :
    Parse env now ("Bearer ".toList ++ t) key = .error .ErrTokenMalformed := by
  obtain ⟨p, ps, hp⟩ := splitOn_leading '.' "Bearer ".toList t (by decide)
  have hdec : b64Decode ('B' :: 'e' :: 'a' :: 'r' :: 'e' :: 'r' :: ' ' :: p) = none :=
    b64Decode_space "Bearer ".toList p (by decide)
  unfold Parse ParseUnverified
  rw [hp]
  rcases ps with _ | ⟨a, _ | ⟨b, _ | ⟨c, ps⟩⟩⟩ <;> simp [DecodeSegment, hdec]

/-! ## Lemmas: the authentication middleware -/

theorem Parse_valid (env : Env) (now : Int) (s key : Str) (tok : Token)
    (h : Parse env now s key = .ok tok) : tok.Valid = true := by
  unfold Parse at h
  split at h
  · cases h
  · split at h
    · cases h
    · split at h
      · cases h
      · split at h
        · cases h
        · cases h; rfl

theorem validateJWT_valid (env : Env) (now : Int) (s : Str) (tok : Token)
    (h : validateJWT env now s = .ok tok) : tok.Valid = true := by
  unfold validateJWT at h
  cases hp : Parse env now s env.JWT_SECRET with
  | error e => simp [hp] at h
  | ok t =>
    simp only [hp, Except.ok.injEq] at h
    rw [← h]
    exact Parse_valid env now s _ t hp

theorem validateJWT_bearer (env : Env) (now : Int) (t : Str) :
    validateJWT env now ("Bearer ".toList ++ t) = .error .ErrTokenMalformed := by
  unfold validateJWT
  simp only [Parse_bearer]

/-- A token from `generateJWT` is accepted by `validateJWT` at every instant; its
claims are the two the program wrote, each decoded as a float64. -/
theorem validateJWT_generateJWT (env : Env) (t0 t1 : Int) (a : Account)
    (hn : isInt64 a.Number) :
    ∃ (tok : Token) (vn ve : Float64),
      validateJWT env t1 (generateJWT env t0 a).1 = .ok tok ∧ tok.Valid = true ∧
      tok.Claims = [(keyAccount, Value.float64 vn), (keyExpiresAt, Value.float64 ve)] ∧
      float64OfInt a.Number = some vn ∧ float64OfInt (wrapInt64 (t0 + 15 * 60)) = some ve ∧
      (generateJWT env t0 a).2 = none := by
  obtain ⟨vn, hvn⟩ := float64OfInt_total _ hn
  obtain ⟨ve, hve⟩ := float64OfInt_total _ (wrapInt64_isInt64 (t0 + 15 * 60))
  have hjson := jsonUnmarshal_claims a.Number (wrapInt64 (t0 + 15 * 60)) vn ve hvn hve
  have h1 : keyAccount ≠ keyExp := by decide
  have h2 : keyExpiresAt ≠ keyExp := by decide
  have h3 : keyAccount ≠ keyNbf := by decide
  have h4 : keyExpiresAt ≠ keyNbf := by decide
  have hvalid : Validate [(keyAccount, Value.float64 vn), (keyExpiresAt, Value.float64 ve)] t1
      = [] := by
    simp [Validate, verifyExpiresAt, verifyNotBefore, parseNumericDate, mapGet, h1, h2, h3, h4]
  obtain ⟨tok, hp, hc, hv, he⟩ := Parse_SignedString env t1 _ _ env.JWT_SECRET hjson
    (jsonMarshal_claims_ascii a.Number (wrapInt64 (t0 + 15 * 60))) hvalid
  refine ⟨tok, vn, ve, ?_, hv, hc, hvn, hve, ?_⟩
  · simp only [validateJWT, generateJWT, hp]
  · simpa only [generateJWT] using he

theorem nearestFloat64_zero (d : Nat) (hd : 0 < d) : nearestFloat64 0 d = some 0 := by
  unfold nearestFloat64 roundToExponent
  have hden : 0 < d * 2 ^ (float64Exponent 0 d).toNat :=
    Nat.mul_pos hd (Nat.two_pow_pos _)
  have hcond : ¬ (d * 2 ^ (float64Exponent 0 d).toNat < 2 * 0 ∨
      (2 * 0 = d * 2 ^ (float64Exponent 0 d).toNat ∧ 0 % 2 = 1)) := by omega
  simp only [Nat.zero_mul, Nat.zero_div, Nat.zero_mod, if_neg hcond]
  simp

theorem numericDateOfFloat_ofInt (e : Int) (h : isInt64 e) (h2 : isInt64 (e + unixToInternal)) :
    numericDateOfFloat (Float64.ofInt e) = e + unixToInternal := by
  have hfrac : (Float64.ofInt e).scaled -
      (Float64.ofInt e).trunc * ((2 ^ 1074 : Nat) : Int) = 0 := by
    rw [trunc_ofInt]
    exact sub_self _
  have hzero : int64OfFloat64 ⟨0⟩ = 0 := by
    have := int64OfFloat64_ofInt 0 (by decide)
    simpa [Float64.ofInt] using this
  have hzero1 : int64OfFloat64 { scaled := Int.ofNat 0 } = 0 := hzero
  unfold numericDateOfFloat
  simp only [hfrac, Int.natAbs_zero, Nat.zero_mul,
    nearestFloat64_zero _ (Nat.two_pow_pos 1074), lt_irrefl, if_false, hzero1, Int.zero_ediv,
    add_zero,
    int64OfFloat64_ofInt e h, timeUnixSeconds]
  unfold wrapInt64
  unfold isInt64 at h2
  omega

/-- The validator does reject a set `exp` claim that has passed. -/
theorem Validate_expired (m : MapClaims) (now e : Int)
    (h : mapGet m keyExp = some (.float64 (Float64.ofInt e))) (h0 : 0 < e) (hle : e ≤ now)
    (hnow : now < 2 ^ 62) :
    Validate m now ≠ [] := by
  have hu : unixToInternal = 62135596800 := rfl
  have hdate := numericDateOfFloat_ofInt e (by unfold isInt64; omega)
    (by unfold isInt64; omega)
  have hnz : (Float64.ofInt e).scaled ≠ 0 := by
    simp only [Float64.ofInt]
    exact mul_ne_zero (by omega) 
      (Int.ofNat_ne_zero.mpr (Nat.pos_iff_ne_zero.mp (Nat.two_pow_pos 1074)))
  have hwrap : wrapInt64 (now + unixToInternal) = now + unixToInternal := by
    unfold wrapInt64; omega
  have hlt : ¬ now + unixToInternal < e + unixToInternal := by omega
  simp [Validate, verifyExpiresAt, parseNumericDate, h, hnz, hdate, hwrap, hlt]

/-- The three ways `WithJWTAuth` ends. -/
theorem WithJWTAuth_cases {σ β : Type} (env : Env) (now : Int)
    (handlerFunc : ResponseWriter → Request → σ → β) (s : Persistence σ)
    (w : ResponseWriter) (r : Request) (st : σ) :
    WithJWTAuth env now handlerFunc s w r st = .served (handlerFunc w r st) ∨
    WithJWTAuth env now handlerFunc s w r st = .denied (PermissionDenied w) ∨
    WithJWTAuth env now handlerFunc s w r st = .panicked := by
  unfold WithJWTAuth
  simp only []
  split
  · simp
  · split
    · simp
    · split
      · simp
      · split
        · simp
        · split
          · split <;> simp
          · simp

/-- `WithJWTAuth` on a request whose token `validateJWT` accepts and whose path id
resolves to an account. -/
theorem WithJWTAuth_resolved {σ β : Type} (env : Env) (now : Int)
    (handlerFunc : ResponseWriter → Request → σ → β) (s : Persistence σ)
    (w : ResponseWriter) (r : Request) (st : σ) (tok : Token) (acc : Account)
    (hne : r.Header.Get hAuthorization ≠ [])
    (hv : validateJWT env now (r.Header.Get hAuthorization) = .ok tok)
    (hg : s.Get st (Atoi ((mapGet r.Vars keyId).getD [])).1 = .ok acc) :
    WithJWTAuth env now handlerFunc s w r st =
      (match mapGet tok.Claims keyAccount with
        | some (.float64 f) =>
          if acc.Number ≠ int64OfFloat64 f then .denied (PermissionDenied w)
          else .served (handlerFunc w r st)
        | _ => .panicked) := by
  have hlen : (r.Header.Get hAuthorization).length ≠ 0 := by
    simpa [List.length_eq_zero] using hne
  have hvalid := validateJWT_valid _ _ _ _ hv
  unfold WithJWTAuth
  simp only [hlen, if_false, hv, hvalid, hg, Bool.true_eq_false]

/-- What `WithJWTAuth` checks: the wrapped handler is called exactly when the
header is non-empty, `validateJWT` accepts it, `store.Get` on the path id returns
an account, and that account's `Number` equals the number converted from the
token's `account` claim. -/
theorem WithJWTAuth_served_iff {σ β : Type} (env : Env) (now : Int)
    (handlerFunc : ResponseWriter → Request → σ → β) (s : Persistence σ)
    (w : ResponseWriter) (r : Request) (st : σ) :
    ((∃ b, WithJWTAuth env now handlerFunc s w r st = Outcome.served b) ↔
      (r.Header.Get hAuthorization ≠ [] ∧
        ∃ token acc, validateJWT env now (r.Header.Get hAuthorization) = .ok token ∧
          s.Get st (Atoi ((mapGet r.Vars keyId).getD [])).1 = .ok acc ∧
          boundAccount token = some acc.Number)) ∧
    (∀ b, WithJWTAuth env now handlerFunc s w r st = Outcome.served b →
      b = handlerFunc w r st) := by
  unfold WithJWTAuth boundAccount
  by_cases hh : r.Header.Get hAuthorization = []
  · simp [hh]
  · have hlen : (r.Header.Get hAuthorization).length ≠ 0 := by
      simpa [List.length_eq_zero] using hh
    simp only [hlen, if_false]
    cases hv : validateJWT env now (r.Header.Get hAuthorization) with
    | error e => simp [hh]
    | ok token =>
      have hvalid := validateJWT_valid _ _ _ _ hv
      cases hg : s.Get st (Atoi ((mapGet r.Vars keyId).getD [])).1 with
      | error e => simp [hvalid]
      | ok acc =>
        cases hc : mapGet token.Claims keyAccount with
        | none => simp [hvalid, hh, hc]
        | some v =>
          cases v with
          | float64 f =>
            by_cases hnum : acc.Number = int64OfFloat64 f
            · simp [hvalid, hh, hnum, hc]
            · have hnum1 : ¬ int64OfFloat64 f = acc.Number := fun h => hnum h.symm
              simp [hvalid, hh, hnum, hnum1, hc]
          | array x => simp [hvalid, hh, hc]
          | object x => simp [hvalid, hh, hc]
          | string x => simp [hvalid, hh, hc]
          | bool x => simp [hvalid, hh, hc]
          | nil => simp [hvalid, hh, hc]

/-- C2: every rejection by `WithJWTAuth` writes the same response. Two requests
the middleware rejects, whatever the reasons, leave the same writer, which is
`PermissionDenied` of the writer it was given; a missing header, a verification error,
a lookup failure and a number mismatch are each such a rejection; and on a fresh
writer that response has status 401, the `WWW-Authenticate` challenge and the
body `error: Permission denied`. -/
theorem C2_rejections_identical {σ β : Type} (env1 env2 : Env) (now1 now2 : Int)
    (f1 f2 : ResponseWriter → Request → σ → β) (s1 s2 : Persistence σ)
    (w : ResponseWriter) (r1 r2 : Request) (st1 st2 : σ) (x y : ResponseWriter)
    (hx : WithJWTAuth env1 now1 f1 s1 w r1 st1 = .denied x)
    (hy : WithJWTAuth env2 now2 f2 s2 w r2 st2 = .denied y) :
    x = y ∧ x = PermissionDenied w ∧
    (r1.Header.Get hAuthorization = [] →
      WithJWTAuth env1 now1 f1 s1 w r1 st1 = .denied (PermissionDenied w)) ∧
    (∀ e, validateJWT env1 now1 (r1.Header.Get hAuthorization) = .error e →
      WithJWTAuth env1 now1 f1 s1 w r1 st1 = .denied (PermissionDenied w)) ∧
    (∀ tok e, validateJWT env1 now1 (r1.Header.Get hAuthorization) = .ok tok →
      s1.Get st1 (Atoi ((mapGet r1.Vars keyId).getD [])).1 = .error e →
      WithJWTAuth env1 now1 f1 s1 w r1 st1 = .denied (PermissionDenied w)) ∧
    (∀ tok acc n, validateJWT env1 now1 (r1.Header.Get hAuthorization) = .ok tok →
      s1.Get st1 (Atoi ((mapGet r1.Vars keyId).getD [])).1 = .ok acc →
      boundAccount tok = some n → n ≠ acc.Number →
      WithJWTAuth env1 now1 f1 s1 w r1 st1 = .denied (PermissionDenied w)) ∧
    (PermissionDenied ResponseWriter.fresh).status = some 401 ∧
    Header.Get (PermissionDenied ResponseWriter.fresh).header hWWWAuthenticate =
      "Basic realm=\"Restricted\"".toList ∧
    (PermissionDenied ResponseWriter.fresh).body =
      [JDoc.obj [("error".toList, JScalar.str "Permission denied".toList)]] := by
  have hx1 : x = PermissionDenied w := by
    rcases WithJWTAuth_cases env1 now1 f1 s1 w r1 st1 with h | h | h <;> rw [h] at hx
    · cases hx
    · cases hx; rfl
    · cases hx
  have hy1 : y = PermissionDenied w := by
    rcases WithJWTAuth_cases env2 now2 f2 s2 w r2 st2 with h | h | h <;> rw [h] at hy
    · cases hy
    · cases hy; rfl
    · cases hy
  refine ⟨by rw [hx1, hy1], hx1, ?_, ?_, ?_, ?_, by decide, by decide, by decide⟩
  · intro h
    unfold WithJWTAuth
    simp [h]
  · intro e h
    unfold WithJWTAuth
    simp only [h]
    split <;> rfl
  · intro tok e hv hg
    unfold WithJWTAuth
    simp only [hv, hg]
    split
    · rfl
    · split <;> rfl
  · intro tok acc n hv hg hb hn
    by_cases hne : r1.Header.Get hAuthorization = []
    · unfold WithJWTAuth
      simp [hne]
    · rw [WithJWTAuth_resolved env1 now1 f1 s1 w r1 st1 tok acc hne hv hg]
      unfold boundAccount at hb
      split at hb
      · rename_i f hf
        simp only [Option.some.injEq] at hb
        have : acc.Number ≠ int64OfFloat64 f := by rw [hb]; exact fun h => hn h.symm
        simp [this]
      · cases hb



/-- Witness of C2: against the store holding accounts A (number 100) and B
(number 200), a request without credential and a request for B's id carrying the
token issued for A are both rejected, with the same 401 response. -/
theorem C2_rejections_identical_witness :
    ∃ x : ResponseWriter,
      WithJWTAuth demoEnv 0 (httpHandler (APIServer.get memStore)) memStore ResponseWriter.fresh
        (authRequest "GET".toList ["accounts".toList, "2".toList] [] "2".toList)
        [accountA, accountB] = .denied x ∧
      WithJWTAuth demoEnv 0 (httpHandler (APIServer.get memStore)) memStore ResponseWriter.fresh
        (authRequest "GET".toList ["accounts".toList, "2".toList]
          (generateJWT demoEnv 0 accountA).1 "2".toList)
        [accountA, accountB] = .denied x ∧
      x.status = some 401 :=
  have hx : WithJWTAuth demoEnv 0 (httpHandler (APIServer.get memStore)) memStore
      ResponseWriter.fresh
      (authRequest "GET".toList ["accounts".toList, "2".toList] [] "2".toList)
      [accountA, accountB] = .denied (PermissionDenied ResponseWriter.fresh) := by decide
  have hy : WithJWTAuth demoEnv 0 (httpHandler (APIServer.get memStore)) memStore
      ResponseWriter.fresh
      (authRequest "GET".toList ["accounts".toList, "2".toList]
        (generateJWT demoEnv 0 accountA).1 "2".toList)
      [accountA, accountB] = .denied (PermissionDenied ResponseWriter.fresh) := by decide
  have h := C2_rejections_identical demoEnv demoEnv 0 0 _ _ memStore memStore
    ResponseWriter.fresh _ _ _ _ _ _ hx hy
  ⟨PermissionDenied ResponseWriter.fresh, hx, hy, h.2.2.2.2.2.2.1⟩

/-! ## Token lifetime (C3) -/

/-- C3, what the code does: a token from `generateJWT` at `t0` is accepted by
`validateJWT` at every instant `t1`, also at and after `t0` + 15 minutes. The
expiry is written under the key `expiresAt`; the validator reads `exp`, which the
token does not hold. -/
theorem C3_token_accepted_after_expiry (env : Env) (t0 t1 : Int) (a : Account)
    (hn : isInt64 a.Number) :
    ∃ tok, validateJWT env t1 (generateJWT env t0 a).1 = .ok tok ∧ tok.Valid = true ∧
      mapGet tok.Claims keyExp = none ∧
      mapGet tok.Claims keyExpiresAt =
        (float64OfInt (wrapInt64 (t0 + 15 * 60))).map Value.float64 := by
  obtain ⟨tok, vn, ve, hv, hvalid, hc, -, hve, -⟩ := validateJWT_generateJWT env t0 t1 a hn
  have h1 : keyAccount ≠ keyExp := by decide
  have h2 : keyExpiresAt ≠ keyExp := by decide
  have h3 : keyAccount ≠ keyExpiresAt := by decide
  refine ⟨tok, hv, hvalid, ?_, ?_⟩
  · rw [hc]; simp [mapGet, h1, h2]
  · rw [hc, hve]; simp [mapGet, h3]

/-- Witness of C3: the token issued for account A at instant 0 expires at 900 and
is accepted at instant 1000000. -/
theorem C3_token_accepted_after_expiry_witness :
    (0 : Int) + 15 * 60 ≤ 1000000 ∧
    ∃ tok, validateJWT demoEnv 1000000 (generateJWT demoEnv 0 accountA).1 = .ok tok ∧
      tok.Valid = true ∧ mapGet tok.Claims keyExp = none ∧
      mapGet tok.Claims keyExpiresAt = some (Value.float64 (Float64.ofInt 900)) :=
  ⟨by decide,
   (C3_token_accepted_after_expiry demoEnv 0 1000000 accountA (by decide)).imp
     (fun _ h => ⟨h.1, h.2.1, h.2.2.1, h.2.2.2.trans
       (by rw [show wrapInt64 (0 + 15 * 60) = 900 from by decide,
         float64OfInt_exact 900 (by decide)]; rfl)⟩)⟩

/-! ## The scheme of the credential (C4) -/

/-- C4, what the code does: a request whose Authorization header starts with the
scheme `Bearer ` is rejected, whatever follows and whatever the store holds. The
middleware hands the whole header value to `validateJWT`. -/
theorem C4_bearer_header_rejected {σ β : Type} (env : Env) (now : Int)
    (handlerFunc : ResponseWriter → Request → σ → β) (s : Persistence σ)
    (w : ResponseWriter) (r : Request) (st : σ) (t : Str)
    (h : r.Header.Get hAuthorization = "Bearer ".toList ++ t) :
    WithJWTAuth env now handlerFunc s w r st = .denied (PermissionDenied w) := by
  unfold WithJWTAuth
  simp only [h, validateJWT_bearer]
  split <;> rfl

/-- Witness of C4: login for account A answers with the header `Bearer ` followed
by A's token; that header value, sent unchanged on a request for A's id, is
rejected, while the bare token is admitted. -/
theorem C4_bearer_header_rejected_witness :
    Header.Get (httpHandler (APIServer.login demoEnv demoAmbient memStore) ResponseWriter.fresh
        { Method := "POST".toList, Path := ["login".toList], Header := [], Vars := [],
          Body := "\x7b\"accountNumber\":100,\"password\":\"pwA\"\x7d".toList }
        [accountA, accountB]).1.header hAuthorization =
      "Bearer ".toList ++ (generateJWT demoEnv demoAmbient.now accountA).1 ∧
    WithJWTAuth demoEnv demoAmbient.now (httpHandler (APIServer.get memStore)) memStore
      ResponseWriter.fresh
      (authRequest "GET".toList ["accounts".toList, "1".toList]
        ("Bearer ".toList ++ (generateJWT demoEnv demoAmbient.now accountA).1) "1".toList)
      [accountA, accountB] = .denied (PermissionDenied ResponseWriter.fresh) ∧
    WithJWTAuth demoEnv demoAmbient.now (httpHandler (APIServer.get memStore)) memStore
      ResponseWriter.fresh
      (authRequest "GET".toList ["accounts".toList, "1".toList]
        (generateJWT demoEnv demoAmbient.now accountA).1 "1".toList)
      [accountA, accountB] =
      .served ((WriteJSON ResponseWriter.fresh StatusOK (.obj accountA.fields)).1,
        [accountA, accountB]) :=
  ⟨by decide,
   C4_bearer_header_rejected demoEnv demoAmbient.now _ memStore ResponseWriter.fresh _ _
     (generateJWT demoEnv demoAmbient.now accountA).1 (by decide),
   by decide⟩

/-! ## Issue, then verify (C5) -/

/-- C5: for an account whose `Number` lies in `[0, 10^15)`, `generateJWT` returns
a token without error, `validateJWT` applied to it at the same instant succeeds,
and the number `WithJWTAuth` reads from its claims is `account.Number`; `NewAccount`
draws its numbers from that range. -/
theorem C5_issue_then_verify (env : Env) (now : Int) (a : Account)
    (h0 : 0 ≤ a.Number) (h1 : a.Number < 10 ^ 15) :
    (∃ tok, validateJWT env now (generateJWT env now a).1 = .ok tok ∧
      (generateJWT env now a).2 = none ∧ boundAccount tok = some a.Number) ∧
    (∀ f l p amb, 0 ≤ (NewAccount f l p amb).Number ∧ (NewAccount f l p amb).Number < 10 ^ 15) := by
  have hn : isInt64 a.Number := by unfold isInt64; omega
  obtain ⟨tok, vn, ve, hv, -, hc, hvn, -, he⟩ := validateJWT_generateJWT env now now a hn
  rw [float64OfInt_exact a.Number (by omega)] at hvn
  simp only [Option.some.injEq] at hvn
  refine ⟨⟨tok, hv, he, ?_⟩, ?_⟩
  · unfold boundAccount
    rw [hc, ← hvn]
    simp [mapGet, int64OfFloat64_ofInt a.Number hn]
  · intro f l p amb
    simp only [NewAccount]
    omega

/-- Witness of C5: account A, number 100, at the demo instant. -/
theorem C5_issue_then_verify_witness :
    (∃ tok, validateJWT demoEnv demoAmbient.now
        (generateJWT demoEnv demoAmbient.now accountA).1 = .ok tok ∧
      (generateJWT demoEnv demoAmbient.now accountA).2 = none ∧
      boundAccount tok = some 100) :=
  (C5_issue_then_verify demoEnv demoAmbient.now accountA (by decide) (by decide)).1

/-! ## A token without a numeric account claim (C10) -/

/-- C10, what the code does: when `validateJWT` accepts the token and the path id
resolves to an account, but the claims hold no float64 under `account`, the type
assertion `claims["account"].(float64)` panics: the middleware neither calls the
handler nor writes the Permission denied response. -/
theorem C10_auth_panics {σ β : Type} (env : Env) (now : Int)
    (handlerFunc : ResponseWriter → Request → σ → β) (s : Persistence σ)
    (w : ResponseWriter) (r : Request) (st : σ) (tok : Token) (acc : Account)
    (hne : r.Header.Get hAuthorization ≠ [])
    (hv : validateJWT env now (r.Header.Get hAuthorization) = .ok tok)
    (hg : s.Get st (Atoi ((mapGet r.Vars keyId).getD [])).1 = .ok acc)
    (hc : ∀ f, mapGet tok.Claims keyAccount ≠ some (.float64 f)) :
    WithJWTAuth env now handlerFunc s w r st = .panicked := by
  rw [WithJWTAuth_resolved env now handlerFunc s w r st tok acc hne hv hg]
  split
  · rename_i f hf
    exact absurd hf (hc f)
  · rfl

/-- Witness of C10: the HS256 token with the empty claim set, signed with the
server's secret, sent on a request for account A's id. -/
theorem C10_auth_panics_witness :
    (∃ tok, validateJWT demoEnv 0 (SignedString demoEnv algHS256 [] demoEnv.JWT_SECRET).1
      = .ok tok ∧ tok.Claims = []) ∧
    WithJWTAuth demoEnv 0 (httpHandler (APIServer.get memStore)) memStore ResponseWriter.fresh
      (authRequest "GET".toList ["accounts".toList, "1".toList]
        (SignedString demoEnv algHS256 [] demoEnv.JWT_SECRET).1 "1".toList)
      [accountA, accountB] = .panicked := by
  obtain ⟨tok, hp, hc, -, -⟩ := Parse_SignedString demoEnv 0 [] [] demoEnv.JWT_SECRET rfl
    (by decide) rfl
  have hv : validateJWT demoEnv 0 (SignedString demoEnv algHS256 [] demoEnv.JWT_SECRET).1 =
      .ok tok := by simp only [validateJWT, hp]
  exact ⟨⟨tok, hv, hc⟩,
    C10_auth_panics demoEnv 0 _ memStore ResponseWriter.fresh
      (authRequest "GET".toList ["accounts".toList, "1".toList]
        (SignedString demoEnv algHS256 [] demoEnv.JWT_SECRET).1 "1".toList)
      [accountA, accountB] tok accountA (by decide) hv (by decide)
      (by intro f h; rw [hc] at h; simp [mapGet] at h)⟩

/-! ## The store lookups (C6) -/

theorem QueryRowScan_accountDests (rows : List Row) :
    ∃ e, QueryRowScan rows accountDests = .error e := by
  cases rows with
  | nil => exact ⟨_, rfl⟩
  | cons r rest => exact ⟨_, rfl⟩

/-- C6, what the code does: `PostgresStore.Get` and `PostgresStore.GetByNumber`
return an error for every database and every key, also for the row `Save` has
just written: `SELECT *` yields the seven columns of `accounts`, and `Scan` is
given six destinations (none for `password`). Given seven destinations, the same
row scans. -/
theorem C6_postgres_lookup_always_fails (db : DB) (id number : Int) (a : Account) (r : Row) :
    PostgresStore.Get db id = .error ("could not get account: ".toList ++ FormatInt id) ∧
    PostgresStore.GetByNumber db number =
      .error ("could not get account: ".toList ++ FormatInt number) ∧
    PostgresStore.Get (PostgresStore.Save db a).1 db.nextId =
      .error ("could not get account: ".toList ++ FormatInt db.nextId) ∧
    Scan r.columns accountDests =
      .error "sql: expected 7 destination arguments in Scan, not 6".toList ∧
    Scan r.columns [.int, .string, .string, .int64, .string, .int64, .time] = .ok r.columns := by
  refine ⟨?_, ?_, ?_, by rfl, by rfl⟩
  · unfold PostgresStore.Get
    obtain ⟨e, he⟩ := QueryRowScan_accountDests (db.accounts.filter (fun r => r.id = id))
    rw [he]
  · unfold PostgresStore.GetByNumber
    obtain ⟨e, he⟩ := QueryRowScan_accountDests (db.accounts.filter (fun r => r.number = number))
    rw [he]
  · unfold PostgresStore.Get
    obtain ⟨e, he⟩ := QueryRowScan_accountDests
      ((PostgresStore.Save db a).1.accounts.filter (fun r => r.id = db.nextId))
    rw [he]

/-! ## The transfer route (C7) -/

/-- C7, what the code does: every POST /transfer request is rejected with the
Permission denied response, whatever credential it carries, by every store that
holds no account of id 0. The route binds no `id`, so the middleware looks up
`Atoi("")`, which is 0. -/
theorem C7_transfer_rejected {σ : Type} (env : Env) (amb : Ambient) (store : Persistence σ)
    (r : Request) (st : σ)
    (hm : r.Method = "POST".toList) (hp : r.Path = ["transfer".toList])
    (hget : ∀ acc, store.Get st 0 ≠ .ok acc) :
    APIServer.Run env amb store r st =
      some (.denied (PermissionDenied ResponseWriter.fresh)) := by
  have hroute : matchRoute r.Method r.Path = some (.transfer, []) := by rw [hm, hp]; decide
  have hid : (Atoi ((mapGet ([] : List (Str × Str)) keyId).getD [])).1 = 0 := by decide
  simp only [APIServer.Run, hroute, APIServer.handler]
  unfold WithJWTAuth
  simp only [hid]
  cases hg : store.Get st 0 with
  | ok acc => exact absurd hg (hget acc)
  | error e =>
    simp only []
    split
    · rfl
    · split
      · rfl
      · split <;> rfl

/-- Witness of C7: with accounts A (id 1) and B (id 2) in the store, the POST
/transfer request carrying the valid token issued for A is rejected and the
transfer handler does not run; the same holds with the `PostgresStore` after two
saves. -/
theorem C7_transfer_rejected_witness :
    (∃ tok, validateJWT demoEnv demoAmbient.now
      (generateJWT demoEnv demoAmbient.now accountA).1 = .ok tok ∧ tok.Valid = true) ∧
    APIServer.Run demoEnv demoAmbient memStore
      { Method := "POST".toList, Path := ["transfer".toList],
        Header := [(hAuthorization, [(generateJWT demoEnv demoAmbient.now accountA).1])],
        Vars := [], Body := "\x7b\"toAccount\":200,\"amount\":5\x7d".toList }
      [accountA, accountB] = some (.denied (PermissionDenied ResponseWriter.fresh)) ∧
    APIServer.Run demoEnv demoAmbient PostgresStore.asPersistence
      { Method := "POST".toList, Path := ["transfer".toList],
        Header := [(hAuthorization, [(generateJWT demoEnv demoAmbient.now accountA).1])],
        Vars := [], Body := "\x7b\"toAccount\":200,\"amount\":5\x7d".toList }
      (PostgresStore.Save (PostgresStore.Save ⟨1, []⟩ accountA).1 accountB).1 =
      some (.denied (PermissionDenied ResponseWriter.fresh)) := by
  refine ⟨?_, ?_, by decide⟩
  · obtain ⟨tok, _, _, hv, hvalid, _⟩ := validateJWT_generateJWT demoEnv demoAmbient.now
      demoAmbient.now accountA (by decide)
    exact ⟨tok, hv, hvalid⟩
  · exact C7_transfer_rejected demoEnv demoAmbient memStore _ [accountA, accountB] rfl rfl
      (by intro acc h; cases h)

/-! ## The create response (C8) -/

/-- The token depends on the environment only through the secret and the MAC,
and on the account only through its number. -/
theorem generateJWT_congr (env1 env2 : Env) (now : Int) (a1 a2 : Account)
    (hsecret : env1.JWT_SECRET = env2.JWT_SECRET) (hhmac : env1.hmac = env2.hmac)
    (hnum : a1.Number = a2.Number) :
    generateJWT env1 now a1 = generateJWT env2 now a2 := by
  simp only [generateJWT, SignedString, SigningMethod.Sign, hmacSum, hsecret, hhmac, hnum]

/-- C8: the response of the create handler carries neither the password nor its
hash. Two create requests with the same names, served with the same signing
setup, clock and random draw, get the same response (headers, status and body)
whatever their passwords, the hashing function and its salt, as long as the store
reports the same outcome of `Save`. The JSON encoding of an account has exactly
the fields id, firstName, lastName, accountNumber, balance and createdAt, and
does not depend on `Account.Password`. -/
theorem C8_create_response_hides_password {σ : Type} (env1 env2 : Env) (amb1 amb2 : Ambient)
    (store : Persistence σ) (w : ResponseWriter) (r1 r2 : Request) (st1 st2 : σ)
    (q1 q2 : CreateAccountRequest)
    (hsecret : env1.JWT_SECRET = env2.JWT_SECRET) (hhmac : env1.hmac = env2.hmac)
    (hnow : amb1.now = amb2.now) (hcreated : amb1.created = amb2.created)
    (hrand : amb1.rand = amb2.rand)
    (hd1 : env1.decodeCreateAccountRequest r1.Body = .ok q1)
    (hd2 : env2.decodeCreateAccountRequest r2.Body = .ok q2)
    (hf : q1.FirstName = q2.FirstName) (hl : q1.LastName = q2.LastName)
    (hsave : (store.Save st1 (NewAccount q1.FirstName q1.LastName
        (HashPassword env1 amb1.salt q1.Password).1 amb1)).2 =
      (store.Save st2 (NewAccount q2.FirstName q2.LastName
        (HashPassword env2 amb2.salt q2.Password).1 amb2)).2) :
    (httpHandler (APIServer.post env1 amb1 store) w r1 st1).1 =
      (httpHandler (APIServer.post env2 amb2 store) w r2 st2).1 ∧
    (∀ a : Account, a.fields.map Prod.fst =
      ["id".toList, "firstName".toList, "lastName".toList, "accountNumber".toList,
       "balance".toList, "createdAt".toList]) ∧
    (∀ (a : Account) (p : Str), ({ a with Password := p } : Account).fields = a.fields) := by
  refine ⟨?_, fun a => rfl, fun a p => rfl⟩
  have hfields : (NewAccount q1.FirstName q1.LastName
      (HashPassword env1 amb1.salt q1.Password).1 amb1).fields =
      (NewAccount q2.FirstName q2.LastName
        (HashPassword env2 amb2.salt q2.Password).1 amb2).fields := by
    simp only [NewAccount, Account.fields, hf, hl, hcreated, hrand]
  have hgen := generateJWT_congr env1 env2 amb1.now
    (NewAccount q1.FirstName q1.LastName (HashPassword env1 amb1.salt q1.Password).1 amb1)
    (NewAccount q2.FirstName q2.LastName (HashPassword env2 amb2.salt q2.Password).1 amb2)
    hsecret hhmac (by simp only [NewAccount, hrand])
  rw [hnow] at hgen
  unfold httpHandler APIServer.post
  simp only [hd1, hd2]
  rcases hs1 : store.Save st1 (NewAccount q1.FirstName q1.LastName
    (HashPassword env1 amb1.salt q1.Password).1 amb1) with ⟨s1, e1⟩
  rcases hs2 : store.Save st2 (NewAccount q2.FirstName q2.LastName
    (HashPassword env2 amb2.salt q2.Password).1 amb2) with ⟨s2, e2⟩
  rw [hs1, hs2] at hsave
  simp only at hsave
  subst hsave
  cases e1 with
  | some err => rfl
  | none =>
    simp only [hnow, hgen, hfields]
    rcases hg : generateJWT env2 amb2.now (NewAccount q2.FirstName q2.LastName
      (HashPassword env2 amb2.salt q2.Password).1 amb2) with ⟨tokenString, ge⟩
    cases ge with
    | some err => rfl
    | none => rfl

/-- Witness of C8: two create requests for Ann Lee with the passwords `pw1` and
`pw2` get the same response, a 200 with the account and its token. -/
theorem C8_create_response_hides_password_witness :
    (httpHandler (APIServer.post demoEnv demoAmbient memStore) ResponseWriter.fresh
      { Method := "POST".toList, Path := ["create".toList], Header := [], Vars := [],
        Body := "\x7b\"firstName\":\"Ann\",\"lastName\":\"Lee\",\"password\":\"pw1\"\x7d".toList }
      []).1 =
    (httpHandler (APIServer.post demoEnv demoAmbient memStore) ResponseWriter.fresh
      { Method := "POST".toList, Path := ["create".toList], Header := [], Vars := [],
        Body := "\x7b\"firstName\":\"Ann\",\"lastName\":\"Lee\",\"password\":\"pw2\"\x7d".toList }
      [accountB]).1 :=
  (C8_create_response_hides_password demoEnv demoEnv demoAmbient demoAmbient memStore
    ResponseWriter.fresh _ _ [] [accountB]
    ⟨"Ann".toList, "Lee".toList, "pw1".toList⟩ ⟨"Ann".toList, "Lee".toList, "pw2".toList⟩
    rfl rfl rfl rfl rfl (by decide) (by decide) rfl rfl (by decide)).1

/-! ## Login (C9) -/

/-- C9: for a login request whose body decodes, on a fresh writer: if
`store.GetByNumber` fails, `login` returns that error, the response is the 400
error document and no Authorization header is set; if the account exists and the
password does not match, the response has status 401, the body `Incorrect
password!` and no Authorization header; if it matches, the response has status
200, echoes the login request and carries the Authorization header `Bearer `
followed by the token `generateJWT` issues for the looked-up account. -/
theorem C9_login_outcomes {σ : Type} (env : Env) (amb : Ambient) (store : Persistence σ)
    (r : Request) (st : σ) (q : LoginRequest)
    (hd : env.decodeLoginRequest r.Body = .ok q) :
    (∀ e, store.GetByNumber st q.Number = .error e →
      (APIServer.login env amb store ResponseWriter.fresh r st).err = some e ∧
      (httpHandler (APIServer.login env amb store) ResponseWriter.fresh r st).1 =
        (WriteJSON ResponseWriter.fresh StatusBadRequest (APIError e)).1 ∧
      Header.Get (httpHandler (APIServer.login env amb store) ResponseWriter.fresh r st).1.header
        hAuthorization = []) ∧
    (∀ acc, store.GetByNumber st q.Number = .ok acc →
      CompareHashedPassword env q.Password acc.Password = false →
      (httpHandler (APIServer.login env amb store) ResponseWriter.fresh r st).1.status
        = some 401 ∧
      (httpHandler (APIServer.login env amb store) ResponseWriter.fresh r st).1.body
        = [APIError "Incorrect password!".toList] ∧
      Header.Get (httpHandler (APIServer.login env amb store) ResponseWriter.fresh r st).1.header
        hAuthorization = []) ∧
    (∀ acc, store.GetByNumber st q.Number = .ok acc →
      CompareHashedPassword env q.Password acc.Password = true →
      (httpHandler (APIServer.login env amb store) ResponseWriter.fresh r st).1.status
        = some 200 ∧
      (httpHandler (APIServer.login env amb store) ResponseWriter.fresh r st).1.body
        = [JDoc.obj q.fields] ∧
      Header.Get (httpHandler (APIServer.login env amb store) ResponseWriter.fresh r st).1.header
        hAuthorization = "Bearer ".toList ++ (generateJWT env amb.now acc).1) := by
  have hk : hAuthorization ≠ hContentType := by decide
  have hk1 : hContentType ≠ hAuthorization := by decide
  refine ⟨?_, ?_, ?_⟩
  · intro e hg
    simp only [httpHandler, APIServer.login, hd, hg]
    refine ⟨trivial, trivial, ?_⟩
    simp [WriteJSON, Header.Get, Header.Add, ResponseWriter.WriteHeader, ResponseWriter.fresh,
      mapGet, mapSet, hk, hk1]
  · intro acc hg hc
    simp only [httpHandler, APIServer.login, hd, hg, hc, if_true]
    simp [WriteJSON, Header.Get, Header.Add, ResponseWriter.WriteHeader, ResponseWriter.fresh,
      mapGet, mapSet, hk, hk1, StatusUnauthorized]
  · intro acc hg hc
    simp only [httpHandler, APIServer.login, hd, hg, hc]
    simp [WriteJSON, Header.Get, Header.Add, Header.Set, ResponseWriter.WriteHeader,
      ResponseWriter.fresh, mapGet, mapSet, hk, hk1, StatusOK]

/-- Witness of C9: the login body for account A with its password decodes, and
the response is a 200 that echoes the request. -/
theorem C9_login_outcomes_witness :
    (httpHandler (APIServer.login demoEnv demoAmbient memStore) ResponseWriter.fresh
      { Method := "POST".toList, Path := ["login".toList], Header := [], Vars := [],
        Body := "\x7b\"accountNumber\":100,\"password\":\"pwA\"\x7d".toList }
      [accountA, accountB]).1.status = some 200 ∧
    (httpHandler (APIServer.login demoEnv demoAmbient memStore) ResponseWriter.fresh
      { Method := "POST".toList, Path := ["login".toList], Header := [], Vars := [],
        Body := "\x7b\"accountNumber\":100,\"password\":\"pwA\"\x7d".toList }
      [accountA, accountB]).1.body =
      [JDoc.obj [("accountNumber".toList, .num 100), ("password".toList, .str "pwA".toList)]] :=
  have h := (C9_login_outcomes demoEnv demoAmbient memStore
    { Method := "POST".toList, Path := ["login".toList], Header := [], Vars := [],
      Body := "\x7b\"accountNumber\":100,\"password\":\"pwA\"\x7d".toList }
    [accountA, accountB] ⟨100, "pwA".toList⟩ (by decide)).2.2 accountA (by decide) (by decide)
  ⟨h.1, h.2.1⟩

end GoBank
